import Mathlib

/-!
Verification development for the f2 batch-renaming tool: a shallow embedding
of the conflict-detection/resolution engine (`validation.go`) and the
apply–commit–undo pipeline (`operation.go`), with theorems settling the
specification claims about them.

Paths are modelled as Lean `String`s.  The Unix path separator `/` is used
throughout (the repository's `pathSeperator` constant).  Filesystem contents
are modelled as the finite list of existing paths; fallible filesystem
mutations (`os.Rename`, `os.MkdirAll`, backup writing/removal) are modelled
by oracles in an `Env` record that return `none` on success or `some msg`
with the error text.  Unbounded `for {}` loops in the source are embedded as
fuel-indexed recursions returning `Option`; `none` means the fuel ran out
(or a Go slice-bounds panic, where noted).
-/

namespace F2

/-- Operating system kinds distinguished by `runtime.GOOS` in the source. -/
inductive OSKind where
  | windows
  | darwin
  | linux
deriving DecidableEq, Repr

/-- The `pathSeperator` constant: the OS path separator (modelled as `/`). -/
def pathSeperator : String := "/"

/-- Split a character list on `/` (semantics of `strings.Split(s, "/")`). -/
def splitSep : List Char → List (List Char)
  | [] => [[]]
  | c :: cs =>
    match splitSep cs with
    | [] => [[]]
    | g :: gs => if c = '/' then [] :: g :: gs else (c :: g) :: gs

/-- Join character-list segments with `/` (inverse of `splitSep`). -/
def joinSegs : List (List Char) → List Char
  | [] => []
  | [g] => g
  | g :: gs => g ++ '/' :: joinSegs gs

/-- Semantics of `filepath.Base`: the last path segment (for the non-empty, slash-normal
paths the engine passes to it). -/
def baseName (s : String) : String :=
  String.mk ((splitSep s.data).getLastD [])

/-- Semantics of `filepath.Dir`: all but the last segment, `"."` for a bare file name. -/
def dirName (s : String) : String :=
  let parts := splitSep s.data
  if parts.length ≤ 1 then "." else String.mk (joinSegs parts.dropLast)

/-- Semantics of `filepath.Join` for the two-argument uses in the source: `Join("", b) = b`,
`Join(a, "") = a`, `Join(".", b) = b`, otherwise `a ++ "/" ++ b`. -/
def joinPath (a b : String) : String :=
  if a = "" then b
  else if a = "." then b
  else if b = "" then a
  else a ++ "/" ++ b

/-- The extension of a file name as a character list: the suffix starting at
the last `.` (semantics of `filepath.Ext` on a separator-free name). -/
def extData (l : List Char) : List Char :=
  let r := l.reverse
  if r.any (· = '.') then '.' :: (r.takeWhile (· ≠ '.')).reverse
  else []

/-- Semantics of `filepath.Ext` on a path: extension of its base name. -/
def fileExt (s : String) : String :=
  String.mk (extData (baseName s).data)

/-- Helper `utils.FilenameWithoutExtension`.  Modelled from the spec: the helper
lives in `internal/utils` (not under `src/`); per the spec it returns the
base name with the extension removed («the base name (not the extension)»). -/
def filenameWithoutExtension (s : String) : String :=
  String.mk (s.data.take (s.data.length - (extData s.data).length))

/-- Semantics of `strings.EqualFold` (simple case folding, modelled via `toLower`). -/
def equalFold (a b : String) : Bool :=
  a.data.map Char.toLower == b.data.map Char.toLower

/-- UTF-8 byte length of a character list (Go's `len([]byte(s))`). -/
def utf8Len (l : List Char) : Nat :=
  (l.map Char.utf8Size).sum

/-- Number of UTF-16 code units required for a string.  This definition
follows the SPEC's wording («260 UTF-16 units (Windows)») and exists only to
be compared against the source's rune-count check. -/
def utf16Units (s : String) : Nat :=
  (s.data.map (fun c => if c.toNat ≥ 0x10000 then 2 else 1)).sum

/-- Semantics of `strings.TrimRight(v, ".")` on a character list. -/
def trimRightDots (l : List Char) : List Char :=
  (l.reverse.dropWhile (· = '.')).reverse

/-- Numeric value of a reversed digit list (least significant digit first). -/
def natOfDigitsRev (ds : List Char) : Nat :=
  ds.foldr (fun c acc => acc * 10 + (c.toNat - '0'.toNat)) 0

/-- Match of the regex `\(\d+\)$` on a file name without extension: if the
name ends in `(digits)`, return the prefix before `(` and the number. -/
def splitTrailingParenNum (s : String) : Option (String × Nat) :=
  match s.data.reverse with
  | ')' :: rest =>
    let ds := rest.takeWhile Char.isDigit
    let rest' := rest.drop ds.length
    match rest' with
    | '(' :: pre => if ds.isEmpty then none else some (String.mk pre.reverse, natOfDigitsRev ds)
    | _ => none
  | _ => none

/-! ## Data model (`operation.go`, `validation.go`) -/

/-- The `renameStatus` vocabulary.  `initial` is the Go zero value `""`. -/
inductive RenameStatus where
  | initial
  | ok
  | unchanged
  | overwriting
  | emptyFilename
  | trailingPeriod
  | pathExists
  | overwritingNewPath
  | invalidCharacters
  | filenameLengthExceeded
deriving DecidableEq, Repr

/-- Record `Change`: a single match in a renaming operation.  The `csvRow` field of
the source is omitted (it is only read by the CSV collaborator). -/
structure Change where
  originalSource : String := ""
  status : RenameStatus := .initial
  baseDir : String := ""
  source : String := ""
  target : String := ""
  error : String := ""
  index : Nat := 0
  isDir : Bool := false
  willOverwrite : Bool := false
deriving DecidableEq, Repr

/-- Enumeration `ConflictType`. -/
inductive ConflictType where
  | emptyFilename
  | fileExists
  | overwritingNewPath
  | maxFilenameLengthExceeded
  | invalidCharacters
  | trailingPeriod
deriving DecidableEq, Repr

/-- Record `Conflict`: one detected collision. -/
structure Conflict where
  target : String := ""
  cause : String := ""
  sources : List String := []
deriving DecidableEq, Repr

/-- The conflict map `map[ConflictType][]Conflict` is modelled as the list of
appended `(type, conflict)` entries in append order: the Go map is non-empty
(`len(op.conflicts) > 0`) exactly when at least one entry was appended. -/
abbrev ConflictList := List (ConflictType × Conflict)

/-- One entry of the `renamedPaths` map value: source path and match index. -/
structure RenamedEntry where
  sourcePath : String
  index : Nat
deriving DecidableEq, Repr

/-- Map `renamedPaths`, modelled as an association list in insertion order
(a deterministic refinement of Go map iteration). -/
abbrev RenamedPaths := List (String × List RenamedEntry)

/-- Look-up in the `renamedPaths` association list. -/
def rpFind (rp : RenamedPaths) (key : String) : Option (List RenamedEntry) :=
  (rp.find? (fun e => e.1 = key)).map (·.2)

/-- Update `renamedPaths[targetPath] = append(renamedPaths[targetPath], entry)`. -/
def rpAppend (rp : RenamedPaths) (key : String) (e : RenamedEntry) : RenamedPaths :=
  match rp with
  | [] => [(key, [e])]
  | (k, v) :: rest => if k = key then (k, v ++ [e]) :: rest else (k, v) :: rpAppend rest key e

/-- Insert an (empty) binding `renamedPaths[pt] = []` for a fresh key. -/
def rpInsertEmpty (rp : RenamedPaths) (key : String) : RenamedPaths :=
  rp ++ [(key, [])]

/-- Constant `windowsMaxLength`: max filename length of 260 characters in Windows. -/
def windowsMaxLength : Nat := 260

/-- Constant `unixMaxBytes`: max filename length of 255 bytes on other OSes. -/
def unixMaxBytes : Nat := 255

/-- The error taxonomy.  Modelled from the spec: `errConflictDetected` and
`errBackupNotFound` are declared in a repository file that is not under
`src/`; per the spec they are distinguishable error values («A
distinguishable conflict-detected error value (abort-before-mutation signal)
vs. a generic partial/fatal failure error», «fail with a distinct "no backup
found" error»).  `custom` carries the text of an `errors.New`/`fmt.Errorf`
error built in `src/`. -/
inductive OpError where
  | conflictDetected
  | backupNotFound
  | custom (msg : String)
deriving DecidableEq, Repr

/-- A filesystem mutation attempted by `commit` (`os.MkdirAll`/`os.Rename`). -/
inductive FsAction where
  | mkdirAll (path : String)
  | rename (source target : String)
deriving DecidableEq, Repr

/-- The environment: the operating system, the current filesystem contents
(the finite set of existing paths, queried by `os.Stat`), and oracles fixing
the outcome of each fallible external effect (`none` = success). -/
structure Env where
  os : OSKind
  fs : List String
  renameRes : String → String → Option String := fun _ _ => none
  mkdirRes : String → Option String := fun _ => none
  backupRes : Option String := none
  removeRes : Option String := none
  stdinRes : Option String := none
  backupPath : Option String := none
  readBackup : String → Except String (List Change) := fun _ => .error "no backup"

/-- Record `Operation`: the matches plus the mode flags the core consults.
Presentation-only fields (stdout/stderr, verbose, search regex, paths, …)
are omitted. -/
structure Operation where
  matches' : List Change := []
  conflicts : ConflictList := []
  errors : List Nat := []
  sort : String := ""
  fixConflicts : Bool := false
  allowOverwrites : Bool := false
  revert : Bool := false
  exec : Bool := false
  includeDir : Bool := false
  simpleMode : Bool := false
  json : Bool := false
  quiet : Bool := false

/-! ## Pure checks (`validation.go`) -/

/-- The character class of `partialWindowsForbiddenCharRegex`. -/
def windowsForbiddenChars : List Char := ['<', '>', ':', '"', '|', '?', '*']

/-- Function `checkForbiddenCharacters`: returns the cause string when the target
contains forbidden characters for the current OS (`nil` otherwise).  On
Windows the cause is every forbidden occurrence joined by `,`
(`FindAllString(path, -1)` then `strings.Join(…, ",")`); on macOS it is `:`. -/
def checkForbiddenCharacters (os : OSKind) (path : String) : Option String :=
  if os = .windows then
    let found := path.data.filter (fun c => windowsForbiddenChars.contains c)
    if found.isEmpty then none
    else some (String.intercalate "," (found.map (fun c => String.mk [c])))
  else if os = .darwin then
    if path.data.contains ':' then some ":" else none
  else none

/-- Function `checktTargetLength`: the standalone filename must not exceed 260
characters (runes) on Windows or 255 bytes elsewhere; returns the cause
text of the error on overflow. -/
def checktTargetLength (os : OSKind) (target : String) : Option String :=
  let filename := baseName target
  if os = .windows then
    if filename.data.length > windowsMaxLength then some "260 characters" else none
  else
    if utf8Len filename.data > unixMaxBytes then some "255 bytes" else none

/-! ## Unique-target generation (`newTarget`) -/

/-- Loop body of `newTarget`: render the candidate with the current counter,
reject it while it exists on the filesystem or is a key of the
`renamedPaths` map, incrementing the counter.  The unbounded `for {}` loop
of the source is given fuel. -/
def newTargetGo (fs claimedKeys : List String) (baseDir dir extn pre : String) :
    Nat → Nat → Option String
  | 0, _ => none
  | fuel + 1, num =>
    let target := joinPath dir (pre ++ "(" ++ toString num ++ ")" ++ extn)
    let targetPath := joinPath baseDir target
    if fs.contains targetPath then
      newTargetGo fs claimedKeys baseDir dir extn pre fuel (num + 1)
    else if claimedKeys.contains targetPath then
      newTargetGo fs claimedKeys baseDir dir extn pre fuel (num + 1)
    else some target

/-- Fuel given to the `newTarget` loop inside the engine. -/
def newTargetFuel (env : Env) (rp : RenamedPaths) : Nat :=
  env.fs.length + rp.length + 2

/-- Function `newTarget`: appends or increments a ` (N)` counter on the
target file name until the result neither exists on the filesystem nor is a
key of the `renamedPaths` argument (which the caller may pass as nil). -/
def newTarget (env : Env) (rp : RenamedPaths) (ch : Change) : Option String :=
  let fileNoExt := filenameWithoutExtension (baseName ch.target)
  let start :=
    match splitTrailingParenNum fileNoExt with
    | some (p, n) => (p, n + 1)
    | none => (fileNoExt ++ " ", 2)
  newTargetGo env.fs (rp.map (·.1)) ch.baseDir (dirName ch.target) (fileExt ch.target)
    start.1 (newTargetFuel env rp) start.2

/-! ## Per-item conflict checks -/

/-- Write the fields of `op.matches[i]` through an update function. -/
def modifyMatch (ms : List Change) (i : Nat) (f : Change → Change) : List Change :=
  ms.set i (f (ms.getD i {}))

/-- Function `checkTrailingPeriodConflict` (Windows-only): a target path
segment ending in periods is a conflict; the fix strips trailing periods
from every segment.  Returns the updated matches, conflict list, and the
`conflictDetected` flag. -/
def checkTrailingPeriodConflict (os : OSKind) (fix : Bool)
    (sourcePath target targetPath : String) (i : Nat)
    (ms : List Change) (cs : ConflictList) : List Change × ConflictList × Bool :=
  if os = .windows then
    let strSlice := splitSep target.data
    if strSlice.any (fun v => trimRightDots v ≠ v) then
      let ms' := modifyMatch ms i (fun c => { c with status := .trailingPeriod })
      let cs' := cs ++ [(.trailingPeriod, { target := targetPath, sources := [sourcePath] })]
      if fix then
        (modifyMatch ms' i (fun c =>
          { c with target := String.mk (joinSegs (strSlice.map trimRightDots)), status := .ok }),
         cs', true)
      else (ms', cs', true)
    else (ms, cs, false)
  else (ms, cs, false)

/-- Truncation loop of the non-Windows length fix: drop trailing runes while
the UTF-8 byte length exceeds `index`.  The loop drops one rune per
iteration, so the list length bounds the iteration count; the recursion is
made structural on that explicit bound.  `none` models the Go slice panic
when the loop would have to shorten an empty name (negative `index`). -/
def chopToBytesGo (index : Int) : Nat → List Char → Option (List Char)
  | _, [] => if (0 : Int) > index then none else some []
  | 0, _ :: _ => none
  | fuel + 1, c :: rest =>
    if (utf8Len (c :: rest) : Int) > index then chopToBytesGo index fuel (c :: rest).dropLast
    else some (c :: rest)

/-- Entry point of the truncation loop: the list length is exactly enough
fuel, so this computes the source loop's result on every input. -/
def chopToBytes (index : Int) (l : List Char) : Option (List Char) :=
  chopToBytesGo index l.length l

/-- Function `checkPathLengthConflict`: records a `maxFilenameLengthExceeded`
conflict when `checktTargetLength` fails; under auto-fix the name (without
extension) is truncated.  `none` models the Go slice panics reachable when
the extension alone exceeds the limit. -/
def checkPathLengthConflict (os : OSKind) (fix : Bool)
    (sourcePath target targetPath : String) (i : Nat)
    (ms : List Change) (cs : ConflictList) : Option (List Change × ConflictList × Bool) :=
  match checktTargetLength os target with
  | none => some (ms, cs, false)
  | some cause =>
    let cs := cs ++
      [(.maxFilenameLengthExceeded, { target := targetPath, cause := cause, sources := [sourcePath] })]
    let ms := modifyMatch ms i (fun c => { c with status := .filenameLengthExceeded })
    if fix then
      if os = .windows then
        let filename := (baseName target).data
        let ext := extData filename
        let f := filename.take (filename.length - ext.length)
        let index : Int := (windowsMaxLength : Int) - (ext.length : Int)
        if index < 0 ∨ index > (f.length : Int) then none
        else
          some (modifyMatch ms i (fun c =>
            { c with target := joinPath (String.mk (f.take index.toNat)) (String.mk ext) }),
            cs, true)
      else
        let filename := baseName target
        let ext := fileExt filename
        let fileNoExt := filenameWithoutExtension filename
        let index : Int := (unixMaxBytes : Int) - (utf8Len ext.data : Int)
        match chopToBytes index fileNoExt.data with
        | none => none
        | some f =>
          some (modifyMatch ms i (fun c =>
            { c with target := String.mk f ++ ext, status := .ok }), cs, true)
    else some (ms, cs, true)

/-- Function `checkForbiddenCharactersConflict`: records an
`invalidCharacters` conflict when `checkForbiddenCharacters` fails; under
auto-fix the offending characters are stripped. -/
def checkForbiddenCharactersConflict (os : OSKind) (fix : Bool)
    (sourcePath target targetPath : String) (i : Nat)
    (ms : List Change) (cs : ConflictList) : List Change × ConflictList × Bool :=
  match checkForbiddenCharacters os target with
  | none => (ms, cs, false)
  | some cause =>
    let cs := cs ++
      [(.invalidCharacters, { target := targetPath, cause := cause, sources := [sourcePath] })]
    let ms := modifyMatch ms i (fun c => { c with status := .invalidCharacters })
    if fix then
      let newT :=
        if os = .windows then
          String.mk (target.data.filter (fun c => !windowsForbiddenChars.contains c))
        else if os = .darwin then String.mk (target.data.filter (· ≠ ':'))
        else target
      (modifyMatch ms i (fun c => { c with target := newT, status := .ok }), cs, true)
    else (ms, cs, true)

/-- Function `checkPathExistsConflict`: when the target path exists on the
filesystem — unchanged names and allowed overwrites are not conflicts, a
strictly earlier match vacating the path (source equal to the target path,
its own source and target not case-insensitively equal) is not a conflict,
anything else is a `fileExists` conflict, fixed via `newTarget` with a nil
`renamedPaths` map. -/
def checkPathExistsConflict (env : Env) (fix allowOverwrites : Bool)
    (sourcePath targetPath : String) (ch : Change) (i : Nat)
    (ms : List Change) (cs : ConflictList) : Option (List Change × ConflictList × Bool) :=
  if env.fs.contains targetPath then
    if equalFold sourcePath targetPath then
      some (modifyMatch ms i (fun c => { c with status := .unchanged }), cs, false)
    else if allowOverwrites then
      some (modifyMatch ms i (fun c => { c with willOverwrite := true, status := .overwriting }),
        cs, false)
    else if (List.range ms.length).any (fun j =>
        let cj := ms.getD j {}
        let sp := joinPath cj.baseDir cj.source
        let tp := joinPath cj.baseDir cj.target
        (targetPath == sp) && !equalFold sp tp && decide (j < i)) then
      some (ms, cs, false)
    else
      let cs := cs ++ [(.fileExists, { target := targetPath, sources := [sourcePath] })]
      let ms := modifyMatch ms i (fun c => { c with status := .pathExists })
      if fix then
        match newTarget env [] ch with
        | none => none
        | some t =>
          some (modifyMatch ms i (fun c => { c with target := t, status := .ok }), cs, true)
      else some (ms, cs, true)
  else some (ms, cs, false)

/-! ## The detection loop (`detectConflicts`) -/

/-- State threaded by `detectConflicts`. -/
structure DetectCtx where
  matches' : List Change := []
  conflicts : ConflictList := []
  renamed : RenamedPaths := []
deriving DecidableEq, Repr

/-- One iteration of the `detectConflicts` per-item loop at index `i`:
either advances to `i + 1`, or — when a check both detected and fixed a
conflict — stays at `i` (the source decrements the counter to recheck the
same item).  Items that pass every check claim their target path in
`renamedPaths`. -/
def detectStep (env : Env) (fix allowOverwrites : Bool) (st : DetectCtx) (i : Nat) :
    Option (DetectCtx × Nat) :=
  let ch := st.matches'.getD i {}
  let sourcePath := joinPath ch.baseDir ch.source
  let targetPath := joinPath ch.baseDir ch.target
  if ch.target = "." ∨ ch.target = "" then
    let cs := st.conflicts ++ [(.emptyFilename, { target := targetPath, sources := [sourcePath] })]
    let ms := modifyMatch st.matches' i (fun c => { c with status := .emptyFilename })
    if fix then
      some ({ st with
        matches' := modifyMatch ms i (fun c => { c with target := ch.source, status := .unchanged }),
        conflicts := cs }, i + 1)
    else some ({ st with matches' := ms, conflicts := cs }, i + 1)
  else
    match checkTrailingPeriodConflict env.os fix sourcePath ch.target targetPath i
        st.matches' st.conflicts with
    | (ms, cs, det) =>
      if det && fix then some ({ st with matches' := ms, conflicts := cs }, i)
      else
        match checkPathLengthConflict env.os fix sourcePath ch.target targetPath i ms cs with
        | none => none
        | some (ms, cs, det) =>
          if det && fix then some ({ st with matches' := ms, conflicts := cs }, i)
          else
            match checkForbiddenCharactersConflict env.os fix sourcePath ch.target targetPath i
                ms cs with
            | (ms, cs, det) =>
              if det && fix then some ({ st with matches' := ms, conflicts := cs }, i)
              else
                match checkPathExistsConflict env fix allowOverwrites sourcePath targetPath ch i
                    ms cs with
                | none => none
                | some (ms, cs, det) =>
                  if det && fix then some ({ st with matches' := ms, conflicts := cs }, i)
                  else
                    some ({ matches' := ms, conflicts := cs,
                            renamed := rpAppend st.renamed targetPath ⟨sourcePath, i⟩ }, i + 1)

/-- The fueled per-item loop `for i := 0; i < len(op.matches); i++`. -/
def detectLoop (env : Env) (fix allowOverwrites : Bool) :
    Nat → DetectCtx → Nat → Option DetectCtx
  | 0, _, _ => none
  | fuel + 1, st, i =>
    if i < st.matches'.length then
      match detectStep env fix allowOverwrites st i with
      | none => none
      | some (st', i') => detectLoop env fix allowOverwrites fuel st' i'
    else some st

/-- Inner fix loop of `checkOverwritingPathConflict` over one group of
colliding entries: the first contributor (`i == 0`) is skipped; each later
contributor gets `newTarget` with the full `renamedPaths` map, and its new
path is inserted into the map (the source repeats the iteration when the
generated path is already a key). -/
def fixGroupGo (env : Env) :
    Nat → Nat → List RenamedEntry → List Change → RenamedPaths →
    Option (List Change × RenamedPaths)
  | 0, _, _, _, _ => none
  | fuel + 1, i, source, ms, rp =>
    if i < source.length then
      if i = 0 then fixGroupGo env fuel (i + 1) source ms rp
      else
        let item := source.getD i ⟨"", 0⟩
        match newTarget env rp (ms.getD item.index {}) with
        | none => none
        | some target =>
          let pt := joinPath (ms.getD item.index {}).baseDir target
          if (rpFind rp pt).isNone then
            fixGroupGo env fuel (i + 1) source
              (modifyMatch ms item.index (fun c => { c with target := target, status := .ok }))
              (rpInsertEmpty rp pt)
          else
            fixGroupGo env fuel i source
              (modifyMatch ms item.index (fun c => { c with target := target, status := .ok }))
              rp
    else some (ms, rp)

/-- Function `checkOverwritingPathConflict`: every `renamedPaths` group with
two or more contributors is an `overwritingNewPath` conflict; under auto-fix
all but the first contributor are renumbered.  The groups are visited in
insertion order (a deterministic refinement of Go map iteration; keys
inserted by the fix itself carry empty entry lists, so visiting them would
change nothing). -/
def checkOverwritingGroups (env : Env) (fix : Bool) (fuel : Nat) :
    List (String × List RenamedEntry) → List Change → ConflictList → RenamedPaths →
    Option (List Change × ConflictList × RenamedPaths)
  | [], ms, cs, rp => some (ms, cs, rp)
  | (targetPath, source) :: rest, ms, cs, rp =>
    if source.length > 1 then
      let ms := source.foldl
        (fun acc e => modifyMatch acc e.index (fun c => { c with status := .overwritingNewPath })) ms
      let cs := cs ++
        [(.overwritingNewPath, { target := targetPath, sources := source.map (·.sourcePath) })]
      if fix then
        match fixGroupGo env fuel 0 source ms rp with
        | none => none
        | some (ms', rp') => checkOverwritingGroups env fix fuel rest ms' cs rp'
      else checkOverwritingGroups env fix fuel rest ms cs rp
    else checkOverwritingGroups env fix fuel rest ms cs rp

/-- Function `detectConflicts`: reset the conflict map, run the per-item
loop, then the cross-item overwriting check. -/
def detectConflicts (env : Env) (op : Operation) (fuel : Nat) : Option DetectCtx :=
  match detectLoop env op.fixConflicts op.allowOverwrites fuel
      { matches' := op.matches', conflicts := [], renamed := [] } 0 with
  | none => none
  | some st =>
    match checkOverwritingGroups env op.fixConflicts fuel st.renamed st.matches'
        st.conflicts st.renamed with
    | none => none
    | some (ms, cs, rp) => some { matches' := ms, conflicts := cs, renamed := rp }

/-! ## Apply / Commit / Undo pipeline (`operation.go`) -/

/-- One iteration of the `rename` loop: skip the item when the joined source
and target coincide; otherwise create missing directories when the target
contains a separator, then attempt the OS rename; a failure stores the error
text on the `Change`.  Returns the updated change, whether the index must be
appended to the failure list, and the attempted filesystem mutations. -/
def renameOne (env : Env) (ch : Change) : Change × Bool × List FsAction :=
  let source := joinPath ch.baseDir ch.source
  let target := joinPath ch.baseDir ch.target
  if source = target then (ch, false, [])
  else if ch.target.data.contains '/' || (ch.target.data.contains '\\' && env.os == .windows) then
    let dirPath := joinPath ch.baseDir (dirName ch.target)
    match env.mkdirRes dirPath with
    | some e => ({ ch with error := e }, true, [.mkdirAll dirPath])
    | none =>
      match env.renameRes source target with
      | some e => ({ ch with error := e }, true, [.mkdirAll dirPath, .rename source target])
      | none => (ch, false, [.mkdirAll dirPath, .rename source target])
  else
    match env.renameRes source target with
    | some e => ({ ch with error := e }, true, [.rename source target])
    | none => (ch, false, [.rename source target])

/-- Method `rename`: iterate over all matches, aggregating failed indices
instead of aborting (`i` is the index of the head). -/
def renameAll (env : Env) : Nat → List Change → List Change × List Nat × List FsAction
  | _, [] => ([], [], [])
  | i, ch :: rest =>
    let one := renameOne env ch
    let rec' := renameAll env (i + 1) rest
    (one.1 :: rec'.1, (if one.2.1 then [i] else []) ++ rec'.2.1, one.2.2 ++ rec'.2.2)

/-- Modelled from the spec: `sortMatches` lives outside `src/` and the spec
does not specify its ordering; it only permutes `op.matches` (directories
are ordered for safe renaming).  It is modelled as the identity
permutation. -/
def sortMatches (ms : List Change) : List Change := ms

/-- Modelled from the spec: `sortBy` (the `--sort` presentation order) lives
outside `src/`; it permutes the matches and is modelled as the identity. -/
def sortBy (ms : List Change) : List Change := ms

/-- Outcome of `commit` (and of `apply`). -/
structure ApplyOut where
  matches' : List Change := []
  conflicts : ConflictList := []
  errors : List Nat := []
  actions : List FsAction := []
  backupWritten : Bool := false
  err : Option OpError := none
deriving DecidableEq, Repr

/-- Method `handleErrors`: called when at least one rename failed; writes
the backup when some matches succeeded and the operation is not a revert,
then selects the reported error.  Returns whether `backup()` was invoked and
the returned error. -/
def handleErrors (env : Env) (revert : Bool) (ms : List Change) (errs : List Nat) :
    Bool × Option OpError :=
  let backupAttempt := decide (ms.length > errs.length) && !revert
  let berr : Option String := if backupAttempt then env.backupRes else none
  let msg := if revert then "Some files could not be reverted." else "Some files could not be renamed."
  let e :=
    if berr = none ∧ ms.length > 0 then OpError.custom msg
    else if berr ≠ none ∧ ms.length > 0 then OpError.custom "The above files could not be renamed"
    else OpError.custom "The renaming operation failed due to the above errors"
  (backupAttempt, some e)

/-- Method `commit`: run `rename`, then either report errors through
`handleErrors` or write the backup (unless reverting). -/
def commit (env : Env) (op : Operation) : ApplyOut :=
  let r := renameAll env 0 op.matches'
  let ms := r.1
  let errs := r.2.1
  let acts := r.2.2
  if errs.length > 0 then
    let h := handleErrors env op.revert ms errs
    { matches' := ms, conflicts := op.conflicts, errors := errs, actions := acts,
      backupWritten := h.1, err := h.2 }
  else if !op.revert then
    { matches' := ms, conflicts := op.conflicts, errors := errs, actions := acts,
      backupWritten := true, err := env.backupRes.map .custom }
  else
    { matches' := ms, conflicts := op.conflicts, errors := errs, actions := acts,
      backupWritten := false, err := none }

/-- Method `apply`: report when nothing matched; run `detectConflicts`;
abort with the conflict-detected error when conflicts remain and auto-fix is
off; otherwise sort when needed and either dry-run (print only) or commit
(after the simple-mode prompt). -/
def apply (env : Env) (op : Operation) (fuel : Nat) : Option ApplyOut :=
  if op.matches'.length = 0 then
    some { matches' := op.matches', conflicts := op.conflicts, errors := op.errors }
  else
    match detectConflicts env op fuel with
    | none => none
    | some st =>
      if decide (st.conflicts.length > 0) && !op.fixConflicts then
        some { matches' := st.matches', conflicts := st.conflicts, errors := op.errors,
               err := some .conflictDetected }
      else
        let ms := if op.includeDir || op.revert then sortMatches st.matches' else st.matches'
        if op.exec then
          if op.simpleMode && !op.json then
            match env.stdinRes with
            | some e =>
              some { matches' := ms, conflicts := st.conflicts, errors := op.errors,
                     err := some (.custom e) }
            | none =>
              some { commit env { op with matches' := ms, conflicts := st.conflicts } with
                     conflicts := st.conflicts }
          else
            some { commit env { op with matches' := ms, conflicts := st.conflicts } with
                   conflicts := st.conflicts }
        else
          some { matches' := ms, conflicts := st.conflicts, errors := op.errors }

/-- Outcome of `undo`/`run` in revert mode. -/
structure UndoOut where
  applyRes : Option ApplyOut := none
  err : Option OpError := none
  backupDeleted : Bool := false
  warned : Bool := false
deriving DecidableEq, Repr

/-- Swap of `Source` and `Target` performed by `undo` on every recorded
change. -/
def swapChange (ch : Change) : Change :=
  { ch with source := ch.target, target := ch.source }

/-- Method `undo`: load and parse the backup record, swap source and target
on every change, sort in print mode, re-enter `apply`; after a successful
executed apply, delete the backup file — a failed deletion only warns. -/
def undo (env : Env) (op : Operation) (path : String) (fuel : Nat) : Option UndoOut :=
  match env.readBackup path with
  | .error e => some { err := some (.custom e) }
  | .ok ops =>
    let ms := ops.map swapChange
    let ms := if !op.exec && op.sort != "" then sortBy ms else ms
    match apply env { op with matches' := ms } fuel with
    | none => none
    | some ar =>
      match ar.err with
      | some e => some { applyRes := some ar, err := some e }
      | none =>
        if op.exec then
          match env.removeRes with
          | some _ => some { applyRes := some ar, warned := true }
          | none => some { applyRes := some ar, backupDeleted := true }
        else some { applyRes := some ar }

/-- Revert branch of `run`: locate the backup file for the working
directory, failing with the distinct backup-not-found error, then `undo`. -/
def runRevert (env : Env) (op : Operation) (fuel : Nat) : Option UndoOut :=
  match env.backupPath with
  | none => some { err := some .backupNotFound }
  | some p => undo env op p fuel

/-! ## Shared lemmas -/

/-! ## Concrete inputs and auxiliary predicates used by the claim theorems -/

def w1Env : Env := { os := .linux, fs := ["d/abc.pdf", "d/abc.epub"] }

def w1Op : Operation :=
  { matches' := [{ source := "abc.pdf", target := "abc.epub", baseDir := "d" }] }

def w1St : DetectCtx := (detectConflicts w1Env w1Op 4).getD {}

def w3Env : Env := { os := .linux, fs := ["d/a.txt", "d/a (2).txt"] }

def w3Rp : RenamedPaths := [("d/a (3).txt", [])]

def w3Ch : Change := { source := "b.txt", target := "a.txt", baseDir := "d" }

def c3Env : Env := { os := .linux, fs := ["d/x.txt", "d/y.txt", "d/t.txt"] }

def c3Ms : List Change :=
  [{ source := "x.txt", target := "t (2).txt", baseDir := "d" },
   { source := "y.txt", target := "t.txt", baseDir := "d" }]

def c3Res : List Change × ConflictList × Bool :=
  (checkPathExistsConflict c3Env true false "d/y.txt" "d/t.txt" (c3Ms.getD 1 {}) 1
    c3Ms []).getD ([], [], false)

/-- Agreement on every `Change` field except `target`, `status` and
`willOverwrite`. -/
def FrameAgree (a b : Change) : Prop :=
  a.originalSource = b.originalSource ∧ a.baseDir = b.baseDir ∧ a.source = b.source ∧
  a.error = b.error ∧ a.index = b.index ∧ a.isDir = b.isDir

/-- Pointwise `FrameAgree` between lists of equal length. -/
def FrameAgreeL (xs ys : List Change) : Prop :=
  xs.length = ys.length ∧ ∀ j, FrameAgree (xs.getD j {}) (ys.getD j {})

def c9Env : Env := { os := .linux, fs := ["d/a.txt", "d/b.txt"] }

def c9Op : Operation :=
  { matches' := [{ source := "a.txt", target := "b.txt", baseDir := "d" }],
    allowOverwrites := true }

def c9St : DetectCtx := (detectConflicts c9Env c9Op 3).getD {}

def w10r : ApplyOut := (apply w1Env w1Op 4).getD {}

def w2Env : Env :=
  { os := .linux, fs := ["d/a.txt", "d/b.txt"],
    renameRes := fun s _ => if s = "d/b.txt" then some "permission denied" else none }

def w2Op : Operation :=
  { matches' := [{ source := "a.txt", target := "a2.txt", baseDir := "d" },
                 { source := "b.txt", target := "b2.txt", baseDir := "d" }],
    exec := true }

def c4Env : Env := { os := .linux, fs := ["d/A.txt", "d/b.txt"] }

def c4Ms : List Change :=
  [{ source := "A.txt", target := "a.txt", baseDir := "d" },
   { source := "b.txt", target := "A.txt", baseDir := "d" }]

def c4Res : List Change × ConflictList × Bool :=
  (checkPathExistsConflict c4Env false false "d/b.txt" "d/A.txt" (c4Ms.getD 1 {}) 1
    c4Ms []).getD ([], [], false)

def w4T : String := (newTarget c4Env [] (c4Ms.getD 1 {})).getD ""

def w8Env : Env :=
  { os := .linux, fs := ["d/b.txt"], backupPath := some "backups/wd.json",
    readBackup := fun q =>
      if q = "backups/wd.json" then
        .ok [{ source := "a.txt", target := "b.txt", baseDir := "d" }]
      else .error "no backup" }

def w8Op : Operation := { revert := true, exec := true }

def w8Ops : List Change := [{ source := "a.txt", target := "b.txt", baseDir := "d" }]

def w8Ar : ApplyOut :=
  (apply w8Env { w8Op with matches' := w8Ops.map swapChange } 4).getD {}

def ex5Env : Env :=
  { os := .linux, fs := ["d/abc.txt", "d/xyz.txt", "d/123.txt", "d/123 (3).txt"] }

def ex5Op : Operation :=
  { matches' := [{ source := "abc.txt", target := "123.txt", baseDir := "d" },
                 { source := "xyz.txt", target := "123.txt", baseDir := "d" }],
    fixConflicts := true }

def w5Env : Env := { os := .linux, fs := [] }

def w5Source : List RenamedEntry := [⟨"d/a.txt", 0⟩, ⟨"d/b.txt", 1⟩]

def w5Ms : List Change :=
  [{ source := "a.txt", target := "t.txt", baseDir := "d" },
   { source := "b.txt", target := "t.txt", baseDir := "d" }]

def w5Rp : RenamedPaths := [("d/t.txt", w5Source)]

def w5Out : List Change × RenamedPaths :=
  (fixGroupGo w5Env 4 0 w5Source w5Ms w5Rp).getD ([], [])

/-- Name of 255 ASCII bytes: exactly at the non-Windows filename limit. -/
def aStr : String := String.mk (List.replicate 255 (Char.ofNat 97))

/-- Match whose target is `aStr`, an existing 255-byte name. -/
def c6M0 : Change :=
  { source := "src.txt", target := aStr, baseDir := "d", status := .ok }

/-- The same match after the path-exists fix: target `aStr ++ " (2)"`,
259 bytes. -/
def c6M1 : Change :=
  { source := "src.txt", target := aStr ++ " (2)", baseDir := "d", status := .ok }

/-- Filesystem on which the detection loop cycles: the source file and an
existing file occupying the 255-byte target name. -/
def c6Env : Env := { os := .linux, fs := ["d/src.txt", "d/" ++ aStr] }

/-- Operation renaming `src.txt` to the occupied 255-byte name, with
auto-fix enabled. -/
def c6Op : Operation := { matches' := [c6M0], fixConflicts := true }

/-- Conflict entry appended by the path-exists check on `c6M0`. -/
def c6D0 : ConflictList :=
  [(.fileExists, { target := "d/" ++ aStr, cause := "", sources := ["d/src.txt"] })]

/-- Conflict entry appended by the length check on `c6M1`. -/
def c6D1 : ConflictList :=
  [(.maxFilenameLengthExceeded,
    { target := "d/" ++ aStr ++ " (2)", cause := "255 bytes", sources := ["d/src.txt"] })]

/-- String of 131 astral-plane characters: 131 runes, but 262 UTF-16 code
units and 524 UTF-8 bytes. -/
def c7Astral : String := String.mk (List.replicate 131 (Char.ofNat 0x1D4B6))

/-- Target name of 256 bytes: one over the non-Windows limit. -/
def w7Tg : String := String.mk (List.replicate 252 (Char.ofNat 97)) ++ ".txt"

/-- Single-match list whose target is the 256-byte name. -/
def w7Ms : List Change := [{ source := "s.txt", target := w7Tg, baseDir := "d" }]

/-- Result of the concrete non-Windows length-check run on `w7Ms`. -/
def w7Out : List Change × ConflictList × Bool :=
  (checkPathLengthConflict .linux true "d/s.txt" w7Tg ("d/" ++ w7Tg) 0 w7Ms []).getD
    ([], [], false)

theorem modifyMatch_length (ms : List Change) (i : Nat) (f : Change → Change) :
    (modifyMatch ms i f).length = ms.length := by
  simp [modifyMatch]

theorem modifyMatch_getD_ne (ms : List Change) (i j : Nat) (f : Change → Change)
    (h : j ≠ i) : (modifyMatch ms i f).getD j {} = ms.getD j {} := by
  simp only [modifyMatch, List.getD]
  rw [List.get?_set_ne _ _ (Ne.symm h)]

/-- The trailing-period check only appends to the conflict list. -/
theorem checkTrailingPeriodConflict_mono (os : OSKind) (fix : Bool)
    (sp tg tp : String) (i : Nat) (ms : List Change) (cs : ConflictList) :
    ∃ t, (checkTrailingPeriodConflict os fix sp tg tp i ms cs).2.1 = cs ++ t := by
  simp only [checkTrailingPeriodConflict]
  split
  · split
    · split
      · exact ⟨_, rfl⟩
      · exact ⟨_, rfl⟩
    · exact ⟨[], by simp⟩
  · exact ⟨[], by simp⟩

/-- The length check only appends to the conflict list. -/
theorem checkPathLengthConflict_mono (os : OSKind) (fix : Bool)
    (sp tg tp : String) (i : Nat) (ms ms' : List Change) (cs cs' : ConflictList) (det : Bool)
    (h : checkPathLengthConflict os fix sp tg tp i ms cs = some (ms', cs', det)) :
    ∃ t, cs' = cs ++ t := by
  simp only [checkPathLengthConflict] at h
  split at h
  · cases h
    exact ⟨[], by simp⟩
  · split at h
    · split at h
      · split at h
        · cases h
        · cases h
          exact ⟨_, rfl⟩
      · split at h
        · cases h
        · cases h
          exact ⟨_, rfl⟩
    · cases h
      exact ⟨_, rfl⟩

/-- The forbidden-characters check only appends to the conflict list. -/
theorem checkForbiddenCharactersConflict_mono (os : OSKind) (fix : Bool)
    (sp tg tp : String) (i : Nat) (ms : List Change) (cs : ConflictList) :
    ∃ t, (checkForbiddenCharactersConflict os fix sp tg tp i ms cs).2.1 = cs ++ t := by
  simp only [checkForbiddenCharactersConflict]
  split
  · exact ⟨[], by simp⟩
  · split
    · exact ⟨_, rfl⟩
    · exact ⟨_, rfl⟩

/-- The path-exists check only appends to the conflict list. -/
theorem checkPathExistsConflict_mono (env : Env) (fix ao : Bool)
    (sp tp : String) (ch : Change) (i : Nat)
    (ms ms' : List Change) (cs cs' : ConflictList) (det : Bool)
    (h : checkPathExistsConflict env fix ao sp tp ch i ms cs = some (ms', cs', det)) :
    ∃ t, cs' = cs ++ t := by
  simp only [checkPathExistsConflict] at h
  split at h
  · split at h
    · cases h
      exact ⟨[], by simp⟩
    · split at h
      · cases h
        exact ⟨[], by simp⟩
      · split at h
        · cases h
          exact ⟨[], by simp⟩
        · split at h
          · split at h
            · cases h
            · cases h
              exact ⟨_, rfl⟩
          · cases h
            exact ⟨_, rfl⟩
  · cases h
    exact ⟨[], by simp⟩

/-- One detection step only appends to the conflict list. -/
theorem detectStep_mono (env : Env) (fix ao : Bool) (st st' : DetectCtx) (i i' : Nat)
    (h : detectStep env fix ao st i = some (st', i')) :
    ∃ t, st'.conflicts = st.conflicts ++ t := by
  simp only [detectStep] at h
  split at h
  · split at h
    · cases h
      exact ⟨_, rfl⟩
    · cases h
      exact ⟨_, rfl⟩
  · obtain ⟨t₁, ht₁⟩ := checkTrailingPeriodConflict_mono env.os fix
      (joinPath (st.matches'.getD i {}).baseDir (st.matches'.getD i {}).source)
      (st.matches'.getD i {}).target
      (joinPath (st.matches'.getD i {}).baseDir (st.matches'.getD i {}).target)
      i st.matches' st.conflicts
    set r₁ := checkTrailingPeriodConflict env.os fix
      (joinPath (st.matches'.getD i {}).baseDir (st.matches'.getD i {}).source)
      (st.matches'.getD i {}).target
      (joinPath (st.matches'.getD i {}).baseDir (st.matches'.getD i {}).target)
      i st.matches' st.conflicts with hr₁
    split at h
    · cases h
      exact ⟨t₁, ht₁⟩
    · split at h
      · cases h
      · rename_i ms₂ cs₂ det₂ h₂
        obtain ⟨t₂, ht₂⟩ := checkPathLengthConflict_mono env.os fix _ _ _ i _ _ _ _ _ h₂
        split at h
        · cases h
          exact ⟨t₁ ++ t₂, by rw [ht₂, ht₁, List.append_assoc]⟩
        · obtain ⟨t₃, ht₃⟩ := checkForbiddenCharactersConflict_mono env.os fix
            (joinPath (st.matches'.getD i {}).baseDir (st.matches'.getD i {}).source)
            (st.matches'.getD i {}).target
            (joinPath (st.matches'.getD i {}).baseDir (st.matches'.getD i {}).target)
            i ms₂ cs₂
          split at h
          · cases h
            refine ⟨t₁ ++ t₂ ++ t₃, ?_⟩
            rw [ht₃, ht₂, ht₁]
            simp [List.append_assoc]
          · split at h
            · cases h
            · rename_i ms₄ cs₄ det₄ h₄
              obtain ⟨t₄, ht₄⟩ := checkPathExistsConflict_mono env fix ao _ _ _ i _ _ _ _ _ h₄
              split at h
              · cases h
                refine ⟨t₁ ++ t₂ ++ t₃ ++ t₄, ?_⟩
                rw [ht₄, ht₃, ht₂, ht₁]
                simp [List.append_assoc]
              · cases h
                refine ⟨t₁ ++ t₂ ++ t₃ ++ t₄, ?_⟩
                rw [ht₄, ht₃, ht₂, ht₁]
                simp [List.append_assoc]

/-- The per-item detection loop only appends to the conflict list. -/
theorem detectLoop_mono (env : Env) (fix ao : Bool) :
    ∀ (fuel : Nat) (st : DetectCtx) (i : Nat) (out : DetectCtx),
      detectLoop env fix ao fuel st i = some out →
      ∃ t, out.conflicts = st.conflicts ++ t := by
  intro fuel
  induction fuel with
  | zero => intro st i out h; cases h
  | succ f ih =>
    intro st i out h
    unfold detectLoop at h
    split at h
    · split at h
      · cases h
      · rename_i st₁ i₁ hstep
        obtain ⟨t₁, ht₁⟩ := detectStep_mono env fix ao st st₁ i i₁ hstep
        obtain ⟨t₂, ht₂⟩ := ih st₁ i₁ out h
        exact ⟨t₁ ++ t₂, by rw [ht₂, ht₁, List.append_assoc]⟩
    · cases h
      exact ⟨[], by simp⟩

/-- The cross-item overwriting check only appends to the conflict list. -/
theorem checkOverwritingGroups_mono (env : Env) (fix : Bool) (fuel : Nat) :
    ∀ (groups : List (String × List RenamedEntry)) (ms : List Change)
      (cs : ConflictList) (rp : RenamedPaths) (out : List Change × ConflictList × RenamedPaths),
      checkOverwritingGroups env fix fuel groups ms cs rp = some out →
      ∃ t, out.2.1 = cs ++ t := by
  intro groups
  induction groups with
  | nil => intro ms cs rp out h; cases h; exact ⟨[], by simp⟩
  | cons g rest ih =>
    obtain ⟨gt, gsrc⟩ := g
    intro ms cs rp out h
    simp only [checkOverwritingGroups] at h
    split at h
    · split at h
      · split at h
        · cases h
        · obtain ⟨t₂, ht₂⟩ := ih _ _ _ out h
          exact ⟨_, by rw [ht₂, List.append_assoc]⟩
      · obtain ⟨t₂, ht₂⟩ := ih _ _ _ out h
        exact ⟨_, by rw [ht₂, List.append_assoc]⟩
    · exact ih _ _ _ out h

/-! ## Claim C1: abort before mutate -/

/-- Claim C1: for an operation with matches, when `detectConflicts` records
at least one conflict and auto-fix is disabled, `apply` returns the
distinguished conflict-detected error with an empty action list and no
backup — `commit` is never invoked, so no filesystem mutation (rename or
directory creation) is attempted for any item of the batch. -/
theorem claim1_abort_before_mutate (env : Env) (op : Operation) (fuel : Nat) (st : DetectCtx)
    (hm : op.matches' ≠ [])
    (hd : detectConflicts env op fuel = some st)
    (hc : st.conflicts ≠ [])
    (hf : op.fixConflicts = false) :
    apply env op fuel = some
      { matches' := st.matches', conflicts := st.conflicts,
        errors := op.errors, actions := [], backupWritten := false,
        err := some .conflictDetected } := by
  have hlen : ¬ op.matches'.length = 0 := by simpa using hm
  unfold apply
  rw [if_neg hlen, hd]
  have hpos : 0 < st.conflicts.length := List.length_pos.mpr hc
  simp [hpos, hf]

/-- Witness for C1 at the spec's overwrite-exists example: renaming
`abc.pdf` to `abc.epub` while `abc.epub` exists, auto-fix off. -/
theorem claim1_abort_before_mutate_witness :
    apply w1Env w1Op 4 = some
      { matches' := w1St.matches', conflicts := w1St.conflicts,
        errors := w1Op.errors, actions := [], backupWritten := false,
        err := some .conflictDetected } :=
  claim1_abort_before_mutate w1Env w1Op 4 w1St (by decide) (by rfl) (by decide) rfl

/-! ## Claim C3: generator non-collision -/

/-- Any target returned by the `newTarget` loop is neither on the filesystem
nor among the claimed keys it was given. -/
theorem newTargetGo_avoids (fs claimed : List String) (baseDir dir extn pre : String) :
    ∀ (fuel num : Nat) (t : String),
      newTargetGo fs claimed baseDir dir extn pre fuel num = some t →
      fs.contains (joinPath baseDir t) = false ∧
      claimed.contains (joinPath baseDir t) = false := by
  intro fuel
  induction fuel with
  | zero => intro num t h; cases h
  | succ f ih =>
    intro num t h
    simp only [newTargetGo] at h
    split at h
    · exact ih _ _ h
    · split at h
      · exact ih _ _ h
      · rename_i h₁ h₂
        cases h
        exact ⟨by simpa using h₁, by simpa using h₂⟩

/-- Claim C3 (amended): whenever `newTarget` returns a target, the
corresponding full path does not exist on the filesystem and is not a key of
the `renamedPaths` map it was passed.  The call in `checkPathExistsConflict`
passes a nil map, so only the filesystem guarantee applies there. -/
theorem claim3_newTarget_non_collision (env : Env) (rp : RenamedPaths) (ch : Change)
    (t : String) (h : newTarget env rp ch = some t) :
    env.fs.contains (joinPath ch.baseDir t) = false ∧
    (rp.map (·.1)).contains (joinPath ch.baseDir t) = false := by
  simp only [newTarget] at h
  exact newTargetGo_avoids _ _ _ _ _ _ _ _ _ h

/-- Witness for C3's amended theorem: with `a.txt` and `a (2).txt` on disk
and `a (3).txt` claimed, `newTarget` skips to `a (4).txt`. -/
theorem claim3_newTarget_non_collision_witness :
    newTarget w3Env w3Rp w3Ch = some "a (4).txt" ∧
    w3Env.fs.contains (joinPath w3Ch.baseDir "a (4).txt") = false ∧
    (w3Rp.map (·.1)).contains (joinPath w3Ch.baseDir "a (4).txt") = false :=
  ⟨by decide, claim3_newTarget_non_collision w3Env w3Rp w3Ch "a (4).txt" (by decide)⟩

/-- Counterexample to C3 as stated: while auto-fixing the `fileExists`
conflict of item 1 (whose target `t.txt` exists on disk),
`checkPathExistsConflict` passes a nil `renamedPaths` map to `newTarget`,
which therefore returns `t (2).txt` — exactly the path already claimed by
the pending rename of item 0 (a genuine pending rename: its source and
target differ), violating the batch half of the claim.  The last two
conjuncts confirm the collision materialises in the engine: the check
stores the returned name, and after the per-item loop both pending renames
claim the single path `d/t (2).txt`. -/
theorem claim3_counterexample :
    newTarget c3Env [] (c3Ms.getD 1 {}) = some "t (2).txt" ∧
    joinPath "d" "t (2).txt"
      = joinPath ((c3Ms.getD 0 {}).baseDir) ((c3Ms.getD 0 {}).target) ∧
    (c3Ms.getD 0 {}).source ≠ (c3Ms.getD 0 {}).target ∧
    c3Res.2.2 = true ∧
    (c3Res.1.getD 1 {}).target = "t (2).txt" ∧
    (detectLoop c3Env true false 5 { matches' := c3Ms, conflicts := [], renamed := [] } 0).map
        (fun st => (rpFind st.renamed "d/t (2).txt").map (fun l => l.length))
      = some (some 2) := by decide

/-! ## Claim C9: the conflict engine's frame -/

theorem FrameAgree.self (a : Change) : FrameAgree a a :=
  ⟨rfl, rfl, rfl, rfl, rfl, rfl⟩

theorem FrameAgree.across {a b c : Change} (h₁ : FrameAgree a b) (h₂ : FrameAgree b c) :
    FrameAgree a c := by
  obtain ⟨x1, x2, x3, x4, x5, x6⟩ := h₁
  obtain ⟨y1, y2, y3, y4, y5, y6⟩ := h₂
  exact ⟨x1.trans y1, x2.trans y2, x3.trans y3, x4.trans y4, x5.trans y5, x6.trans y6⟩

theorem FrameAgreeL.selfL (xs : List Change) : FrameAgreeL xs xs :=
  ⟨rfl, fun _ => FrameAgree.self _⟩

theorem FrameAgreeL.acrossL {xs ys zs : List Change}
    (h₁ : FrameAgreeL xs ys) (h₂ : FrameAgreeL ys zs) : FrameAgreeL xs zs :=
  ⟨h₁.1.trans h₂.1, fun j => (h₁.2 j).across (h₂.2 j)⟩

/-- Updating one match with a frame-preserving function preserves the frame
of the whole list. -/
theorem FrameAgreeL.modify (ms : List Change) (i : Nat) (f : Change → Change)
    (hf : ∀ c, FrameAgree (f c) c) : FrameAgreeL (modifyMatch ms i f) ms := by
  refine ⟨by simp [modifyMatch], fun j => ?_⟩
  by_cases hj : j = i
  · subst hj
    simp only [modifyMatch, List.getD]
    rw [List.get?_set_eq]
    cases hms : ms.get? j with
    | none => simp [hms, FrameAgree.self]
    | some c =>
      simp only [hms, Option.map, Option.getD]
      exact hf _
  · rw [modifyMatch_getD_ne ms i j f hj]
    exact FrameAgree.self _

theorem checkTrailingPeriodConflict_frame (os : OSKind) (fix : Bool)
    (sp tg tp : String) (i : Nat) (ms : List Change) (cs : ConflictList) :
    FrameAgreeL (checkTrailingPeriodConflict os fix sp tg tp i ms cs).1 ms := by
  simp only [checkTrailingPeriodConflict]
  split
  · split
    · split
      · dsimp only
        refine (FrameAgreeL.modify _ _ _ ?_).acrossL (FrameAgreeL.modify _ _ _ ?_) <;>
          exact fun c => ⟨rfl, rfl, rfl, rfl, rfl, rfl⟩
      · dsimp only
        refine FrameAgreeL.modify _ _ _ ?_
        exact fun c => ⟨rfl, rfl, rfl, rfl, rfl, rfl⟩
    · exact FrameAgreeL.selfL ms
  · exact FrameAgreeL.selfL ms

theorem checkPathLengthConflict_frame (os : OSKind) (fix : Bool)
    (sp tg tp : String) (i : Nat) (ms ms' : List Change) (cs cs' : ConflictList) (det : Bool)
    (h : checkPathLengthConflict os fix sp tg tp i ms cs = some (ms', cs', det)) :
    FrameAgreeL ms' ms := by
  simp only [checkPathLengthConflict] at h
  split at h
  · cases h; exact FrameAgreeL.selfL ms
  · split at h
    · split at h
      · split at h
        · cases h
        · cases h
          refine (FrameAgreeL.modify _ _ _ ?_).acrossL (FrameAgreeL.modify _ _ _ ?_) <;>
          exact fun c => ⟨rfl, rfl, rfl, rfl, rfl, rfl⟩
      · split at h
        · cases h
        · cases h
          refine (FrameAgreeL.modify _ _ _ ?_).acrossL (FrameAgreeL.modify _ _ _ ?_) <;>
          exact fun c => ⟨rfl, rfl, rfl, rfl, rfl, rfl⟩
    · cases h
      refine FrameAgreeL.modify _ _ _ ?_
      exact fun c => ⟨rfl, rfl, rfl, rfl, rfl, rfl⟩

theorem checkForbiddenCharactersConflict_frame (os : OSKind) (fix : Bool)
    (sp tg tp : String) (i : Nat) (ms : List Change) (cs : ConflictList) :
    FrameAgreeL (checkForbiddenCharactersConflict os fix sp tg tp i ms cs).1 ms := by
  simp only [checkForbiddenCharactersConflict]
  split
  · exact FrameAgreeL.selfL ms
  · split
    · dsimp only
      refine (FrameAgreeL.modify _ _ _ ?_).acrossL (FrameAgreeL.modify _ _ _ ?_) <;>
        exact fun c => ⟨rfl, rfl, rfl, rfl, rfl, rfl⟩
    · dsimp only
      refine FrameAgreeL.modify _ _ _ ?_
      exact fun c => ⟨rfl, rfl, rfl, rfl, rfl, rfl⟩

theorem checkPathExistsConflict_frame (env : Env) (fix ao : Bool)
    (sp tp : String) (ch : Change) (i : Nat)
    (ms ms' : List Change) (cs cs' : ConflictList) (det : Bool)
    (h : checkPathExistsConflict env fix ao sp tp ch i ms cs = some (ms', cs', det)) :
    FrameAgreeL ms' ms := by
  simp only [checkPathExistsConflict] at h
  split at h
  · split at h
    · cases h
      refine FrameAgreeL.modify _ _ _ ?_
      exact fun c => ⟨rfl, rfl, rfl, rfl, rfl, rfl⟩
    · split at h
      · cases h
        refine FrameAgreeL.modify _ _ _ ?_
        exact fun c => ⟨rfl, rfl, rfl, rfl, rfl, rfl⟩
      · split at h
        · cases h
          exact FrameAgreeL.selfL ms
        · split at h
          · split at h
            · cases h
            · cases h
              refine (FrameAgreeL.modify _ _ _ ?_).acrossL (FrameAgreeL.modify _ _ _ ?_) <;>
                exact fun c => ⟨rfl, rfl, rfl, rfl, rfl, rfl⟩
          · cases h
            refine FrameAgreeL.modify _ _ _ ?_
            exact fun c => ⟨rfl, rfl, rfl, rfl, rfl, rfl⟩
  · cases h
    exact FrameAgreeL.selfL ms

theorem detectStep_frame (env : Env) (fix ao : Bool) (st st' : DetectCtx) (i i' : Nat)
    (h : detectStep env fix ao st i = some (st', i')) :
    FrameAgreeL st'.matches' st.matches' := by
  simp only [detectStep] at h
  split at h
  · split at h
    · cases h
      dsimp only
      refine (FrameAgreeL.modify _ _ _ ?_).acrossL (FrameAgreeL.modify _ _ _ ?_) <;>
        exact fun c => ⟨rfl, rfl, rfl, rfl, rfl, rfl⟩
    · cases h
      dsimp only
      refine FrameAgreeL.modify _ _ _ ?_
      exact fun c => ⟨rfl, rfl, rfl, rfl, rfl, rfl⟩
  · have h₁ := checkTrailingPeriodConflict_frame env.os fix
      (joinPath (st.matches'.getD i {}).baseDir (st.matches'.getD i {}).source)
      (st.matches'.getD i {}).target
      (joinPath (st.matches'.getD i {}).baseDir (st.matches'.getD i {}).target)
      i st.matches' st.conflicts
    split at h
    · cases h
      exact h₁
    · split at h
      · cases h
      · rename_i ms₂ cs₂ det₂ h₂
        have h₂' := checkPathLengthConflict_frame env.os fix _ _ _ i _ _ _ _ _ h₂
        split at h
        · cases h
          exact h₂'.acrossL h₁
        · have h₃ := checkForbiddenCharactersConflict_frame env.os fix
            (joinPath (st.matches'.getD i {}).baseDir (st.matches'.getD i {}).source)
            (st.matches'.getD i {}).target
            (joinPath (st.matches'.getD i {}).baseDir (st.matches'.getD i {}).target)
            i ms₂ cs₂
          split at h
          · cases h
            exact (h₃.acrossL h₂').acrossL h₁
          · split at h
            · cases h
            · rename_i ms₄ cs₄ det₄ h₄
              have h₄' := checkPathExistsConflict_frame env fix ao _ _ _ i _ _ _ _ _ h₄
              split at h
              · cases h
                exact ((h₄'.acrossL h₃).acrossL h₂').acrossL h₁
              · cases h
                exact ((h₄'.acrossL h₃).acrossL h₂').acrossL h₁

theorem detectLoop_frame (env : Env) (fix ao : Bool) :
    ∀ (fuel : Nat) (st : DetectCtx) (i : Nat) (out : DetectCtx),
      detectLoop env fix ao fuel st i = some out →
      FrameAgreeL out.matches' st.matches' := by
  intro fuel
  induction fuel with
  | zero => intro st i out h; cases h
  | succ f ih =>
    intro st i out h
    unfold detectLoop at h
    split at h
    · split at h
      · cases h
      · rename_i st₁ i₁ hstep
        exact (ih st₁ i₁ out h).acrossL (detectStep_frame env fix ao st st₁ i i₁ hstep)
    · cases h
      exact FrameAgreeL.selfL _

theorem foldl_overwriting_frame (ms : List Change) (gsrc : List RenamedEntry) :
    FrameAgreeL (gsrc.foldl (fun acc e => modifyMatch acc e.index
      (fun c => { c with status := RenameStatus.overwritingNewPath })) ms) ms := by
  induction gsrc generalizing ms with
  | nil => exact FrameAgreeL.selfL ms
  | cons e rest ih =>
    refine (ih _).acrossL (FrameAgreeL.modify _ _ _ ?_)
    exact fun c => ⟨rfl, rfl, rfl, rfl, rfl, rfl⟩

theorem fixGroupGo_frame (env : Env) :
    ∀ (fuel i : Nat) (source : List RenamedEntry) (ms : List Change) (rp : RenamedPaths)
      (out : List Change × RenamedPaths),
      fixGroupGo env fuel i source ms rp = some out →
      FrameAgreeL out.1 ms := by
  intro fuel
  induction fuel with
  | zero => intro i source ms rp out h; cases h
  | succ f ih =>
    intro i source ms rp out h
    simp only [fixGroupGo] at h
    split at h
    · split at h
      · exact ih _ _ _ _ _ h
      · split at h
        · cases h
        · split at h
          · refine (ih _ _ _ _ _ h).acrossL (FrameAgreeL.modify _ _ _ ?_)
            exact fun c => ⟨rfl, rfl, rfl, rfl, rfl, rfl⟩
          · refine (ih _ _ _ _ _ h).acrossL (FrameAgreeL.modify _ _ _ ?_)
            exact fun c => ⟨rfl, rfl, rfl, rfl, rfl, rfl⟩
    · cases h
      exact FrameAgreeL.selfL ms

theorem checkOverwritingGroups_frame (env : Env) (fix : Bool) (fuel : Nat) :
    ∀ (groups : List (String × List RenamedEntry)) (ms : List Change)
      (cs : ConflictList) (rp : RenamedPaths) (out : List Change × ConflictList × RenamedPaths),
      checkOverwritingGroups env fix fuel groups ms cs rp = some out →
      FrameAgreeL out.1 ms := by
  intro groups
  induction groups with
  | nil => intro ms cs rp out h; cases h; exact FrameAgreeL.selfL ms
  | cons g rest ih =>
    obtain ⟨gt, gsrc⟩ := g
    intro ms cs rp out h
    simp only [checkOverwritingGroups] at h
    split at h
    · split at h
      · split at h
        · cases h
        · rename_i p hfix
          exact ((ih _ _ _ out h).acrossL (fixGroupGo_frame env _ _ _ _ _ _ hfix)).acrossL
            (foldl_overwriting_frame ms gsrc)
      · exact (ih _ _ _ out h).acrossL (foldl_overwriting_frame ms gsrc)
    · exact ih _ _ _ out h

/-- Claim C9 (amended): a full run of the conflict engine leaves `Source`,
`BaseDir`, `originalSource`, `IsDir`, `Error` and the index of every match
unchanged, and preserves the length of the list; only `Target`, `status`
and `WillOverwrite` are mutated. -/
theorem claim9_conflict_engine_frame (env : Env) (op : Operation) (fuel : Nat)
    (out : DetectCtx) (h : detectConflicts env op fuel = some out) :
    FrameAgreeL out.matches' op.matches' := by
  simp only [detectConflicts] at h
  split at h
  · cases h
  · rename_i st hloop
    split at h
    · cases h
    · rename_i ms cs rp hgroups
      cases h
      exact (checkOverwritingGroups_frame env op.fixConflicts fuel _ _ _ _ _ hgroups).acrossL
        (detectLoop_frame env op.fixConflicts op.allowOverwrites fuel _ 0 _ hloop)

/-- Counterexample to C9 as stated: with overwrites allowed and the target
existing on disk, `checkPathExistsConflict` sets `WillOverwrite` — a field
that is neither `Target` nor `status` — from `false` to `true`. -/
theorem claim9_counterexample :
    ((detectConflicts c9Env c9Op 3).map (fun s => s.matches'.map (·.willOverwrite))
      = some [true]) ∧
    c9Op.matches'.map (·.willOverwrite) = [false] := by decide

/-- Witness for C9's amended frame theorem on a run that mutates
`WillOverwrite`, `status` and nothing else it should not. -/
theorem claim9_conflict_engine_frame_witness :
    FrameAgreeL c9St.matches' c9Op.matches' :=
  claim9_conflict_engine_frame c9Env c9Op 3 c9St (by rfl)

/-! ## Claim C10: the conflict-detected error is returned exactly when
conflicts remain and auto-fix is off -/

/-- Whatever `handleErrors` returns, it is never the conflict-detected
error. -/
theorem handleErrors_ne_conflict (env : Env) (revert : Bool)
    (ms : List Change) (errs : List Nat) :
    (handleErrors env revert ms errs).2 ≠ some OpError.conflictDetected := by
  simp only [handleErrors]
  split
  · split
    · simp
    · split <;> simp
  · split <;> simp

/-- Whatever `commit` returns, it is never the conflict-detected error. -/
theorem commit_err_ne_conflict (env : Env) (op : Operation) :
    (commit env op).err ≠ some OpError.conflictDetected := by
  simp only [commit]
  split
  · exact handleErrors_ne_conflict env op.revert _ _
  · split
    · cases env.backupRes <;> simp
    · simp

/-- Claim C10: `apply` returns the conflict-detected error exactly when the
resulting conflict map is non-empty and auto-fix is disabled; fixing never
clears the conflict map — both the per-item loop and the cross-item pass
only append to it — yet with auto-fix on the pipeline proceeds without that
error. -/
theorem claim10_conflict_error_iff (env : Env) (op : Operation) (fuel : Nat) (r : ApplyOut)
    (hc0 : op.conflicts = []) (h : apply env op fuel = some r) :
    ((r.err = some OpError.conflictDetected) ↔ (r.conflicts ≠ [] ∧ op.fixConflicts = false))
    ∧ (∀ (f : Nat) (st : DetectCtx) (i : Nat) (out : DetectCtx),
        detectLoop env op.fixConflicts op.allowOverwrites f st i = some out →
        ∃ t, out.conflicts = st.conflicts ++ t)
    ∧ (∀ (groups : List (String × List RenamedEntry)) (ms : List Change)
        (cs : ConflictList) (rp : RenamedPaths) (out : List Change × ConflictList × RenamedPaths),
        checkOverwritingGroups env op.fixConflicts fuel groups ms cs rp = some out →
        ∃ t, out.2.1 = cs ++ t) := by
  refine ⟨?_, fun f st i out hl => detectLoop_mono env _ _ f st i out hl,
    fun groups ms cs rp out hg => checkOverwritingGroups_mono env _ fuel groups ms cs rp out hg⟩
  simp only [apply] at h
  split at h
  · cases h
    simp [hc0]
  · split at h
    · cases h
    · rename_i st hdet
      split at h
      · rename_i hcond
        cases h
        rw [Bool.and_eq_true, decide_eq_true_eq, Bool.not_eq_true'] at hcond
        constructor
        · intro _
          exact ⟨List.length_pos.mp hcond.1, hcond.2⟩
        · intro _
          rfl
      · rename_i hcond
        rw [Bool.not_eq_true, Bool.and_eq_false_iff] at hcond
        have hside : ¬ (st.conflicts ≠ [] ∧ op.fixConflicts = false) := by
          rcases hcond with hc | hf
          · rw [decide_eq_false_iff_not] at hc
            intro hx
            exact hc (List.length_pos.mpr hx.1)
          · rw [Bool.not_eq_false'] at hf
            intro hx
            rw [hf] at hx
            cases hx.2
        split at h
        · split at h
          · split at h
            · cases h
              exact iff_of_false (by simp) hside
            · cases h
              dsimp only
              exact iff_of_false (commit_err_ne_conflict env _) hside
          · cases h
            dsimp only
            exact iff_of_false (commit_err_ne_conflict env _) hside
        · cases h
          exact iff_of_false (by simp) hside

/-- Witness for C10 on the concrete conflicting batch of `w1Op`. -/
theorem claim10_conflict_error_iff_witness :
    ((w10r.err = some OpError.conflictDetected) ↔
      (w10r.conflicts ≠ [] ∧ w1Op.fixConflicts = false))
    ∧ (∀ (f : Nat) (st : DetectCtx) (i : Nat) (out : DetectCtx),
        detectLoop w1Env w1Op.fixConflicts w1Op.allowOverwrites f st i = some out →
        ∃ t, out.conflicts = st.conflicts ++ t)
    ∧ (∀ (groups : List (String × List RenamedEntry)) (ms : List Change)
        (cs : ConflictList) (rp : RenamedPaths) (out : List Change × ConflictList × RenamedPaths),
        checkOverwritingGroups w1Env w1Op.fixConflicts 4 groups ms cs rp = some out →
        ∃ t, out.2.1 = cs ++ t) :=
  claim10_conflict_error_iff w1Env w1Op 4 w10r rfl (by rfl)

/-! ## Claim C2: partial-failure policy of `rename` and the backup rule -/

/-- The rename loop processes every item: the resulting list is the
item-wise outcome, independent of the other items. -/
theorem renameAll_fst (env : Env) : ∀ (i : Nat) (ms : List Change),
    (renameAll env i ms).1 = ms.map (fun ch => (renameOne env ch).1) := by
  intro i ms
  induction ms generalizing i with
  | nil => rfl
  | cons ch rest ih => simp [renameAll, ih]

/-- The failure list collects exactly the indices of failed items, in
increasing order, one entry per failed item. -/
theorem renameAll_errors (env : Env) : ∀ (ms : List Change) (i : Nat),
    (renameAll env i ms).2.1 =
      (List.range ms.length).filterMap
        (fun j => if (renameOne env (ms.getD j {})).2.1 then some (i + j) else none) := by
  intro ms
  induction ms with
  | nil => intro i; rfl
  | cons ch rest ih =>
    intro i
    have hfun : ∀ i : Nat,
        ((fun j => if (renameOne env ((ch :: rest).getD j {})).2.1 = true
            then some (i + j) else none) ∘ Nat.succ)
          = (fun j => if (renameOne env (rest.getD j {})).2.1 = true
            then some ((i + 1) + j) else none) := by
      intro i
      funext j
      have hadd : i + j.succ = (i + 1) + j := by omega
      simp only [Function.comp_apply, List.getD_cons_succ]
      rw [hadd]
    simp only [renameAll, List.length_cons, List.range_succ_eq_map, List.filterMap_cons,
      List.filterMap_map, List.getD_cons_zero, Nat.add_zero, hfun, ih (i + 1)]
    cases hone : (renameOne env ch).2.1 with
    | false => simp [hone]
    | true => simp [hone]

/-- Items whose joined source and target coincide are skipped untouched. -/
theorem renameOne_skip (env : Env) (ch : Change)
    (h : joinPath ch.baseDir ch.source = joinPath ch.baseDir ch.target) :
    renameOne env ch = (ch, false, []) := by
  simp [renameOne, h]

/-- A failed item records the oracle's error text on the change. -/
theorem renameOne_err (env : Env) (ch : Change) (h : (renameOne env ch).2.1 = true) :
    ∃ e, (renameOne env ch).1 = { ch with error := e } ∧
      (env.mkdirRes (joinPath ch.baseDir (dirName ch.target)) = some e ∨
       env.renameRes (joinPath ch.baseDir ch.source) (joinPath ch.baseDir ch.target) = some e) := by
  by_cases h₁ : joinPath ch.baseDir ch.source = joinPath ch.baseDir ch.target
  · simp [renameOne, h₁] at h
  by_cases h₂ : ('/' ∈ ch.target.data ∨ ('\\' ∈ ch.target.data ∧ env.os = OSKind.windows))
  · cases hmk : env.mkdirRes (joinPath ch.baseDir (dirName ch.target)) with
    | some e => exact ⟨e, by simp [renameOne, h₁, h₂, hmk], Or.inl rfl⟩
    | none =>
      cases hrn : env.renameRes (joinPath ch.baseDir ch.source)
          (joinPath ch.baseDir ch.target) with
      | some e => exact ⟨e, by simp [renameOne, h₁, h₂, hmk, hrn], Or.inr rfl⟩
      | none => simp [renameOne, h₁, h₂, hmk, hrn] at h
  · cases hrn : env.renameRes (joinPath ch.baseDir ch.source)
        (joinPath ch.baseDir ch.target) with
    | some e => exact ⟨e, by simp [renameOne, h₁, h₂, hrn], Or.inr rfl⟩
    | none => simp [renameOne, h₁, h₂, hrn] at h

/-- A successful (or skipped) item is left unchanged by `rename`. -/
theorem renameOne_ok (env : Env) (ch : Change) (h : (renameOne env ch).2.1 = false) :
    (renameOne env ch).1 = ch := by
  by_cases h₁ : joinPath ch.baseDir ch.source = joinPath ch.baseDir ch.target
  · simp [renameOne, h₁]
  by_cases h₂ : ('/' ∈ ch.target.data ∨ ('\\' ∈ ch.target.data ∧ env.os = OSKind.windows))
  · cases hmk : env.mkdirRes (joinPath ch.baseDir (dirName ch.target)) with
    | some e => simp [renameOne, h₁, h₂, hmk] at h
    | none =>
      cases hrn : env.renameRes (joinPath ch.baseDir ch.source)
          (joinPath ch.baseDir ch.target) with
      | some e => simp [renameOne, h₁, h₂, hmk, hrn] at h
      | none => simp [renameOne, h₁, h₂, hmk, hrn]
  · cases hrn : env.renameRes (joinPath ch.baseDir ch.source)
        (joinPath ch.baseDir ch.target) with
    | some e => simp [renameOne, h₁, h₂, hrn] at h
    | none => simp [renameOne, h₁, h₂, hrn]

/-- The matches and failure list in `commit`'s outcome come straight from
the rename loop, in every branch. -/
theorem commit_fields (env : Env) (op : Operation) :
    (commit env op).matches' = (renameAll env 0 op.matches').1 ∧
    (commit env op).errors = (renameAll env 0 op.matches').2.1 := by
  simp only [commit]
  split
  · exact ⟨rfl, rfl⟩
  · split
    · exact ⟨rfl, rfl⟩
    · exact ⟨rfl, rfl⟩

/-- Claim C2: during commit, the rename loop processes every item whose
joined source and target differ (skipping the others untouched), records
each failing item's oracle error text on that change, appends exactly the
failing indices — in order, once each — to the failure list without ever
aborting the batch, and afterwards the backup is written if and only if
fewer items failed than matched and the operation is not a revert. -/
theorem claim2_rename_partial_failure (env : Env) (op : Operation)
    (hm : op.matches' ≠ []) :
    (commit env op).matches' = op.matches'.map (fun ch => (renameOne env ch).1)
    ∧ (∀ ch : Change, joinPath ch.baseDir ch.source = joinPath ch.baseDir ch.target →
        renameOne env ch = (ch, false, []))
    ∧ (∀ ch : Change, (renameOne env ch).2.1 = true →
        ∃ e, (renameOne env ch).1 = { ch with error := e } ∧
          (env.mkdirRes (joinPath ch.baseDir (dirName ch.target)) = some e ∨
           env.renameRes (joinPath ch.baseDir ch.source) (joinPath ch.baseDir ch.target) = some e))
    ∧ (∀ ch : Change, (renameOne env ch).2.1 = false → (renameOne env ch).1 = ch)
    ∧ (commit env op).errors = (List.range op.matches'.length).filterMap
        (fun j => if (renameOne env (op.matches'.getD j {})).2.1 then some j else none)
    ∧ ((commit env op).backupWritten = true ↔
        ((commit env op).errors.length < op.matches'.length ∧ op.revert = false)) := by
  obtain ⟨hcm, hce⟩ := commit_fields env op
  have herr := renameAll_errors env op.matches' 0
  have herr0 : (renameAll env 0 op.matches').2.1 =
      (List.range op.matches'.length).filterMap
        (fun j => if (renameOne env (op.matches'.getD j {})).2.1 then some j else none) := by
    rw [herr]
    congr 1
    funext j
    rw [Nat.zero_add]
  refine ⟨by rw [hcm, renameAll_fst], renameOne_skip env, renameOne_err env,
    renameOne_ok env, by rw [hce, herr0], ?_⟩
  have hmslen : (renameAll env 0 op.matches').1.length = op.matches'.length := by
    rw [renameAll_fst]; simp
  rw [hce]
  simp only [commit]
  split
  · rename_i hpos
    simp only [handleErrors]
    constructor
    · intro hb
      rw [Bool.and_eq_true, decide_eq_true_eq, Bool.not_eq_true'] at hb
      rw [hmslen] at hb
      exact ⟨hb.1, hb.2⟩
    · intro hb
      rw [Bool.and_eq_true, decide_eq_true_eq, Bool.not_eq_true', hmslen]
      exact ⟨hb.1, hb.2⟩
  · rename_i hz
    have hz0 : (renameAll env 0 op.matches').2.1.length = 0 := by omega
    split
    · rename_i hrev
      rw [Bool.not_eq_true'] at hrev
      simp only [true_iff]
      refine ⟨?_, hrev⟩
      rw [hz0]
      exact List.length_pos.mpr hm
    · rename_i hrev
      rw [Bool.not_eq_true', Bool.not_eq_false] at hrev
      constructor
      · intro hb
        cases hb
      · intro hb
        rw [hrev] at hb
        cases hb.2

/-- Witness for C2: one of two renames fails; the failure list is `[1]`, the
failed change carries the oracle's error text, and a backup is written. -/
theorem claim2_rename_partial_failure_witness :
    (commit w2Env w2Op).matches' = w2Op.matches'.map (fun ch => (renameOne w2Env ch).1)
    ∧ (∀ ch : Change, joinPath ch.baseDir ch.source = joinPath ch.baseDir ch.target →
        renameOne w2Env ch = (ch, false, []))
    ∧ (∀ ch : Change, (renameOne w2Env ch).2.1 = true →
        ∃ e, (renameOne w2Env ch).1 = { ch with error := e } ∧
          (w2Env.mkdirRes (joinPath ch.baseDir (dirName ch.target)) = some e ∨
           w2Env.renameRes (joinPath ch.baseDir ch.source) (joinPath ch.baseDir ch.target) = some e))
    ∧ (∀ ch : Change, (renameOne w2Env ch).2.1 = false → (renameOne w2Env ch).1 = ch)
    ∧ (commit w2Env w2Op).errors = (List.range w2Op.matches'.length).filterMap
        (fun j => if (renameOne w2Env (w2Op.matches'.getD j {})).2.1 then some j else none)
    ∧ ((commit w2Env w2Op).backupWritten = true ↔
        ((commit w2Env w2Op).errors.length < w2Op.matches'.length ∧ w2Op.revert = false)) :=
  claim2_rename_partial_failure w2Env w2Op (by decide)

/-! ## Claim C4: the path-exists decision procedure -/

/-- The vacating scan of `checkPathExistsConflict` succeeds exactly when a
strictly earlier-indexed match has its source path equal to the contested
target path and its own source and target are not case-insensitively
equal. -/
theorem vacate_any_iff (tp : String) (i : Nat) (ms : List Change) (hlen : i ≤ ms.length) :
    ((List.range ms.length).any (fun j =>
      let cj := ms.getD j {}
      let sp := joinPath cj.baseDir cj.source
      let tp' := joinPath cj.baseDir cj.target
      (tp == sp) && !equalFold sp tp' && decide (j < i)) = true) ↔
    (∃ j, j < i ∧
      joinPath (ms.getD j {}).baseDir (ms.getD j {}).source = tp ∧
      equalFold (joinPath (ms.getD j {}).baseDir (ms.getD j {}).source)
        (joinPath (ms.getD j {}).baseDir (ms.getD j {}).target) = false) := by
  rw [List.any_eq_true]
  constructor
  · rintro ⟨j, hj, hcond⟩
    rw [Bool.and_eq_true, Bool.and_eq_true] at hcond
    obtain ⟨⟨h1, h2⟩, h3⟩ := hcond
    refine ⟨j, of_decide_eq_true h3, (beq_iff_eq.mp h1).symm, ?_⟩
    rwa [Bool.not_eq_true'] at h2
  · rintro ⟨j, hji, hsp, hef⟩
    refine ⟨j, List.mem_range.mpr (lt_of_lt_of_le hji hlen), ?_⟩
    rw [Bool.and_eq_true, Bool.and_eq_true]
    exact ⟨⟨beq_iff_eq.mpr hsp.symm, by rw [Bool.not_eq_true', hef]⟩, decide_eq_true hji⟩

/-- Claim C4 (amended): when the target path of item `i` exists on the
filesystem, `checkPathExistsConflict` decides in order — case-insensitively
equal source and target give status `unchanged` with no conflict; otherwise
allowed overwrites give status `overwriting` with `WillOverwrite` set and no
conflict; otherwise a strictly earlier item whose source equals the target
path and whose own source and target differ *case-insensitively* suppresses
the conflict; otherwise a `fileExists` conflict is recorded, and under
auto-fix the item receives the freshly generated target with status `ok`. -/
theorem claim4_path_exists_decision (env : Env) (fix ao : Bool) (sp tp : String)
    (ch : Change) (i : Nat) (ms : List Change) (cs : ConflictList)
    (hex : env.fs.contains tp = true) (hlen : i ≤ ms.length) :
    (equalFold sp tp = true →
      checkPathExistsConflict env fix ao sp tp ch i ms cs =
        some (modifyMatch ms i (fun c => { c with status := .unchanged }), cs, false))
    ∧ (equalFold sp tp = false → ao = true →
      checkPathExistsConflict env fix ao sp tp ch i ms cs =
        some (modifyMatch ms i
          (fun c => { c with willOverwrite := true, status := .overwriting }), cs, false))
    ∧ (equalFold sp tp = false → ao = false →
      (∃ j, j < i ∧
        joinPath (ms.getD j {}).baseDir (ms.getD j {}).source = tp ∧
        equalFold (joinPath (ms.getD j {}).baseDir (ms.getD j {}).source)
          (joinPath (ms.getD j {}).baseDir (ms.getD j {}).target) = false) →
      checkPathExistsConflict env fix ao sp tp ch i ms cs = some (ms, cs, false))
    ∧ (equalFold sp tp = false → ao = false →
      ¬ (∃ j, j < i ∧
        joinPath (ms.getD j {}).baseDir (ms.getD j {}).source = tp ∧
        equalFold (joinPath (ms.getD j {}).baseDir (ms.getD j {}).source)
          (joinPath (ms.getD j {}).baseDir (ms.getD j {}).target) = false) →
      (fix = false →
        checkPathExistsConflict env fix ao sp tp ch i ms cs =
          some (modifyMatch ms i (fun c => { c with status := .pathExists }),
                cs ++ [(.fileExists, { target := tp, sources := [sp] })], true))
      ∧ (fix = true → ∀ t, newTarget env [] ch = some t →
        checkPathExistsConflict env fix ao sp tp ch i ms cs =
          some (modifyMatch (modifyMatch ms i (fun c => { c with status := .pathExists })) i
                  (fun c => { c with target := t, status := .ok }),
                cs ++ [(.fileExists, { target := tp, sources := [sp] })], true))) := by
  refine ⟨?_, ?_, ?_, ?_⟩
  · intro heq
    simp only [checkPathExistsConflict]
    rw [hex, heq]
    simp
  · intro heq hao
    subst hao
    simp only [checkPathExistsConflict]
    rw [hex, heq]
    simp
  · intro heq hao hvac
    subst hao
    have hany := (vacate_any_iff tp i ms hlen).mpr hvac
    simp only [checkPathExistsConflict]
    rw [hex, heq, hany]
    simp
  · intro heq hao hvac
    subst hao
    have hany : ((List.range ms.length).any (fun j =>
        let cj := ms.getD j {}
        let sp := joinPath cj.baseDir cj.source
        let tp' := joinPath cj.baseDir cj.target
        (tp == sp) && !equalFold sp tp' && decide (j < i))) = false := by
      rw [← Bool.not_eq_true]
      intro hx
      exact hvac ((vacate_any_iff tp i ms hlen).mp hx)
    constructor
    · intro hfix
      subst hfix
      simp only [checkPathExistsConflict]
      rw [hex, heq, hany]
      simp
    · intro hfix t ht
      subst hfix
      simp only [checkPathExistsConflict]
      rw [hex, heq, hany, ht]
      simp

/-- Counterexample to C4 as stated: item 0 has source `A.txt` equal to item
1's contested target path and its own source and target differ (as strings:
`A.txt` vs `a.txt`), so the claim demands that no conflict be recorded for
item 1 — yet the code compares them with `EqualFold`, treats the pair as
unchanged, and records a `fileExists` conflict. -/
theorem claim4_counterexample :
    c4Env.fs.contains "d/A.txt" = true ∧
    equalFold "d/b.txt" "d/A.txt" = false ∧
    joinPath (c4Ms.getD 0 {}).baseDir (c4Ms.getD 0 {}).source = "d/A.txt" ∧
    (c4Ms.getD 0 {}).source ≠ (c4Ms.getD 0 {}).target ∧
    c4Res.2.2 = true ∧
    c4Res.2.1 = [(.fileExists, { target := "d/A.txt", sources := ["d/b.txt"] })] := by
  decide

/-- Witness for C4's amended theorem, exercising the fileExists branch on
the concrete state of the counterexample (with auto-fix on). -/
theorem claim4_path_exists_decision_witness :
    checkPathExistsConflict c4Env true false "d/b.txt" "d/A.txt" (c4Ms.getD 1 {}) 1 c4Ms [] =
      some (modifyMatch (modifyMatch c4Ms 1 (fun c => { c with status := .pathExists })) 1
              (fun c => { c with target := w4T, status := .ok }),
            [] ++ [(.fileExists, { target := "d/A.txt", sources := ["d/b.txt"] })], true) :=
  (((claim4_path_exists_decision c4Env true false "d/b.txt" "d/A.txt" (c4Ms.getD 1 {}) 1 c4Ms []
    (by decide) (by decide)).2.2.2 (by decide) rfl (by decide)).2 rfl w4T (by decide))

/-! ## Claim C8: the undo pipeline -/

/-- Claim C8: undo loads the backup record (failing with the distinct
backup-not-found error when absent), swaps `Source` and `Target` on every
recorded change, re-enters the same `apply` pipeline, and deletes the backup
file only after an executed undo whose `apply` returned no error — a failed
deletion is a warning, not an operation failure. -/
theorem claim8_undo_pipeline (env : Env) (op : Operation) (fuel : Nat)
    (p : String) (ops : List Change) (ar : ApplyOut)
    (hb : env.backupPath = some p) (hread : env.readBackup p = .ok ops)
    (happly : apply env { op with matches' := ops.map swapChange } fuel = some ar) :
    (∀ (env' : Env) (op' : Operation) (fuel' : Nat), env'.backupPath = none →
      runRevert env' op' fuel' = some { err := some OpError.backupNotFound })
    ∧ (∀ e, ar.err = some e →
        runRevert env op fuel = some { applyRes := some ar, err := some e })
    ∧ (ar.err = none → op.exec = true → env.removeRes = none →
        runRevert env op fuel = some { applyRes := some ar, backupDeleted := true })
    ∧ (ar.err = none → op.exec = true → ∀ w, env.removeRes = some w →
        runRevert env op fuel = some { applyRes := some ar, warned := true })
    ∧ (ar.err = none → op.exec = false →
        runRevert env op fuel = some { applyRes := some ar }) := by
  have hsort : ∀ (x : List Change),
      (if (!op.exec && op.sort != "") = true then sortBy x else x) = x := by
    intro x
    split <;> rfl
  have hrun : runRevert env op fuel =
      match ar.err with
      | some e => some { applyRes := some ar, err := some e }
      | none =>
        if op.exec = true then
          match env.removeRes with
          | some _ => some { applyRes := some ar, warned := true }
          | none => some { applyRes := some ar, backupDeleted := true }
        else some { applyRes := some ar } := by
    simp only [runRevert, hb, undo, hread, hsort, happly]
  refine ⟨?_, ?_, ?_, ?_, ?_⟩
  · intro env' op' fuel' hb'
    simp only [runRevert, hb']
  · intro e herr
    rw [hrun, herr]
  · intro herr hexec hrm
    rw [hrun, herr, hexec, hrm]
    rfl
  · intro herr hexec w hrm
    rw [hrun, herr, hexec, hrm]
    rfl
  · intro herr hexec
    rw [hrun, herr, hexec]
    rfl

/-- Witness for C8: a one-item executed undo whose apply succeeds; the
backup file is deleted. -/
theorem claim8_undo_pipeline_witness :
    ((∀ (env' : Env) (op' : Operation) (fuel' : Nat), env'.backupPath = none →
      runRevert env' op' fuel' = some { err := some OpError.backupNotFound })
    ∧ (∀ e, w8Ar.err = some e →
        runRevert w8Env w8Op 4 = some { applyRes := some w8Ar, err := some e })
    ∧ (w8Ar.err = none → w8Op.exec = true → w8Env.removeRes = none →
        runRevert w8Env w8Op 4 = some { applyRes := some w8Ar, backupDeleted := true })
    ∧ (w8Ar.err = none → w8Op.exec = true → ∀ w, w8Env.removeRes = some w →
        runRevert w8Env w8Op 4 = some { applyRes := some w8Ar, warned := true })
    ∧ (w8Ar.err = none → w8Op.exec = false →
        runRevert w8Env w8Op 4 = some { applyRes := some w8Ar }))
    ∧ runRevert w8Env w8Op 4 = some { applyRes := some w8Ar, backupDeleted := true } :=
  have h := claim8_undo_pipeline w8Env w8Op 4 "backups/wd.json" w8Ops w8Ar rfl (by rfl) (by rfl)
  ⟨h, h.2.2.1 (by rfl) rfl rfl⟩

/-! ## Claim C5: collision renumbering order -/

/-- The overwriting fix loop never writes to the match of the first (index
0) contributor: only positions `k ≥ 1` of the group are renumbered. -/
theorem fixGroupGo_first_preserved (env : Env) (idx0 : Nat)
    (source : List RenamedEntry)
    (hothers : ∀ k, 1 ≤ k → k < source.length → (source.getD k ⟨"", 0⟩).index ≠ idx0) :
    ∀ (fuel i : Nat) (ms : List Change) (rp : RenamedPaths)
      (out : List Change × RenamedPaths),
      fixGroupGo env fuel i source ms rp = some out →
      out.1.getD idx0 {} = ms.getD idx0 {} := by
  intro fuel
  induction fuel with
  | zero => intro i ms rp out h; cases h
  | succ f ih =>
    intro i ms rp out h
    simp only [fixGroupGo] at h
    split at h
    · rename_i hlt
      split at h
      · exact ih _ _ _ _ h
      · rename_i hne0
        split at h
        · cases h
        · split at h
          · rw [ih _ _ _ _ h]
            exact modifyMatch_getD_ne _ _ _ _
              (Ne.symm (hothers i (Nat.one_le_iff_ne_zero.mpr hne0) hlt))
          · rw [ih _ _ _ _ h]
            exact modifyMatch_getD_ne _ _ _ _
              (Ne.symm (hothers i (Nat.one_le_iff_ne_zero.mpr hne0) hlt))
    · cases h
      rfl

/-- Claim C5: under auto-fix, collision resolution follows the original list
order — the earliest-indexed contributor of a group keeps its target
unmodified (provided the later contributors are distinct indices, as they
are in a detection pass) — and on the spec's concrete example (existing
`123.txt` and `123 (3).txt`, sources `abc.txt`/`xyz.txt` both renamed to
`123`), the engine produces `123 (2).txt` and `123 (4).txt` in list order,
skipping the taken number with a strictly increasing counter. -/
theorem claim5_collision_renumbering (env : Env) (fuel idx0 : Nat)
    (source : List RenamedEntry) (ms : List Change) (rp : RenamedPaths)
    (out : List Change × RenamedPaths)
    (_hfirst : (source.getD 0 ⟨"", 0⟩).index = idx0)
    (hothers : ∀ k, 1 ≤ k → k < source.length → (source.getD k ⟨"", 0⟩).index ≠ idx0)
    (hrun : fixGroupGo env fuel 0 source ms rp = some out) :
    out.1.getD idx0 {} = ms.getD idx0 {}
    ∧ ((detectConflicts ex5Env ex5Op 10).map (fun s => s.matches'.map (·.target)) =
        some ["123 (2).txt", "123 (4).txt"]) :=
  ⟨fixGroupGo_first_preserved env idx0 source hothers fuel 0 ms rp out hrun, by rfl⟩

/-- Witness for C5 on a two-contributor group: the first contributor's match
is untouched by the fix loop. -/
theorem claim5_collision_renumbering_witness :
    w5Out.1.getD 0 {} = w5Ms.getD 0 {}
    ∧ ((detectConflicts ex5Env ex5Op 10).map (fun s => s.matches'.map (·.target)) =
        some ["123 (2).txt", "123 (4).txt"]) :=
  claim5_collision_renumbering w5Env 4 0 w5Source w5Ms w5Rp w5Out rfl
    (by decide) (by rfl)

/-! ## Claim C7: the length check and its fix -/

theorem utf8Len_append (a b : List Char) : utf8Len (a ++ b) = utf8Len a + utf8Len b := by
  simp [utf8Len]

theorem splitSep_ne_nil (l : List Char) : splitSep l ≠ [] := by
  induction l with
  | nil => simp [splitSep]
  | cons c cs ih =>
    intro h
    rw [splitSep] at h
    rcases hcs : splitSep cs with _ | ⟨g, gs⟩
    · exact ih hcs
    · rw [hcs] at h
      dsimp only at h
      split at h <;> simp at h

theorem getLastD_mem {α : Type} (l : List α) (d : α) (h : l ≠ []) : l.getLastD d ∈ l := by
  induction l generalizing d with
  | nil => cases h rfl
  | cons x xs ih =>
    rw [List.getLastD_cons]
    cases hxs : xs with
    | nil => simp
    | cons y ys =>
      rw [← hxs]
      exact List.mem_cons_of_mem x (ih x (by rw [hxs]; simp))

theorem getLastD_indep {α : Type} (l : List α) (d d' : α) (h : l ≠ []) :
    l.getLastD d = l.getLastD d' := by
  cases l with
  | nil => cases h rfl
  | cons x xs => rw [List.getLastD_cons, List.getLastD_cons]

theorem getLastD_append_right {α : Type} (xs ys : List α) (d : α) (h : ys ≠ []) :
    (xs ++ ys).getLastD d = ys.getLastD d := by
  induction xs generalizing d with
  | nil => rfl
  | cons x xs ih =>
    rw [List.cons_append, List.getLastD_cons, ih x]
    exact getLastD_indep ys x d h

theorem splitSep_no_slash : ∀ (l : List Char), ∀ p ∈ splitSep l, '/' ∉ p := by
  intro l
  induction l with
  | nil =>
    intro p hp
    simp only [splitSep, List.mem_singleton] at hp
    simp [hp]
  | cons c cs ih =>
    intro p hp
    rw [splitSep] at hp
    rcases hcs : splitSep cs with _ | ⟨g, gs⟩
    · exact absurd hcs (splitSep_ne_nil cs)
    · rw [hcs] at hp
      dsimp only at hp
      split at hp
      · rcases List.mem_cons.mp hp with h1 | h2
        · simp [h1]
        · exact ih p (hcs ▸ h2)
      · rcases List.mem_cons.mp hp with h1 | h2
        · rename_i hc
          subst h1
          intro hmem
          rcases List.mem_cons.mp hmem with h3 | h4
          · exact hc h3.symm
          · exact ih g (hcs ▸ List.mem_cons_self g gs) h4
        · exact ih p (hcs ▸ List.mem_cons.mpr (Or.inr h2))

theorem baseName_no_slash (s : String) : '/' ∉ (baseName s).data := by
  simp only [baseName]
  exact splitSep_no_slash s.data _ (getLastD_mem _ _ (splitSep_ne_nil s.data))

theorem splitSep_single (l : List Char) (h : '/' ∉ l) : splitSep l = [l] := by
  induction l with
  | nil => rfl
  | cons c cs ih =>
    have hc : c ≠ '/' := fun hx => h (by simp [hx])
    have hcs : '/' ∉ cs := fun hx => h (by simp [hx])
    rw [splitSep, ih hcs]
    simp [fun hx => hc hx]

theorem baseName_of_no_slash (l : List Char) (h : '/' ∉ l) :
    baseName (String.mk l) = String.mk l := by
  simp only [baseName, splitSep_single l h, List.getLastD_cons, List.getLastD_nil]

theorem splitSep_slash_decomp : ∀ (la lb : List Char),
    ∃ pre, pre ≠ [] ∧ splitSep (la ++ '/' :: lb) = pre ++ splitSep lb := by
  intro la lb
  induction la with
  | nil =>
    refine ⟨[[]], by simp, ?_⟩
    rw [List.nil_append, splitSep]
    rcases hs : splitSep lb with _ | ⟨g, gs⟩
    · exact absurd hs (splitSep_ne_nil lb)
    · simp
  | cons c cs ih =>
    obtain ⟨pre, hne, hpre⟩ := ih
    cases hp : pre with
    | nil => cases hne hp
    | cons p ps =>
      subst hp
      have hstep : splitSep ((c :: cs) ++ '/' :: lb)
          = if c = '/' then [] :: p :: (ps ++ splitSep lb)
            else (c :: p) :: (ps ++ splitSep lb) := by
        rw [List.cons_append, splitSep, hpre]
        rfl
      by_cases hc : c = '/'
      · exact ⟨[] :: p :: ps, by simp, by rw [hstep, if_pos hc]; simp⟩
      · exact ⟨(c :: p) :: ps, by simp, by rw [hstep, if_neg hc]; simp⟩

/-- Base name of a joined path whose last component has no slash. -/
theorem baseName_join_no_slash (a : String) (lb : List Char) (hb : '/' ∉ lb)
    (hbne : lb ≠ []) :
    baseName (joinPath a (String.mk lb)) = String.mk lb := by
  simp only [joinPath]
  split
  · exact baseName_of_no_slash lb hb
  · split
    · exact baseName_of_no_slash lb hb
    · split
      · rename_i hbe
        cases hbne (congrArg String.data hbe)
      · have hdata : (a ++ "/" ++ String.mk lb).data = a.data ++ '/' :: lb := by
          simp [String.data_append]
        simp only [baseName, hdata]
        obtain ⟨pre, hne, hpre⟩ := splitSep_slash_decomp a.data lb
        rw [hpre, getLastD_append_right _ _ _ (splitSep_ne_nil lb), splitSep_single lb hb]
        rfl

theorem chopToBytesGo_le (index : Int) :
    ∀ (fuel : Nat) (l r : List Char), chopToBytesGo index fuel l = some r →
      (utf8Len r : Int) ≤ index := by
  intro fuel
  induction fuel with
  | zero =>
    intro l r h
    cases l with
    | nil =>
      rw [chopToBytesGo] at h
      split at h
      · cases h
      · cases h
        rename_i hpos
        simpa [utf8Len] using le_of_not_lt hpos
    | cons c rest =>
      rw [chopToBytesGo] at h
      cases h
  | succ n ih =>
    intro l r h
    cases l with
    | nil =>
      rw [chopToBytesGo] at h
      split at h
      · cases h
      · cases h
        rename_i hpos
        simpa [utf8Len] using le_of_not_lt hpos
    | cons c rest =>
      rw [chopToBytesGo] at h
      split at h
      · exact ih _ r h
      · cases h
        rename_i hcond
        exact le_of_not_lt hcond

theorem chopToBytesGo_take (index : Int) :
    ∀ (fuel : Nat) (l r : List Char), chopToBytesGo index fuel l = some r →
      ∃ k, r = l.take k := by
  intro fuel
  induction fuel with
  | zero =>
    intro l r h
    cases l with
    | nil =>
      rw [chopToBytesGo] at h
      split at h
      · cases h
      · cases h
        exact ⟨0, rfl⟩
    | cons c rest =>
      rw [chopToBytesGo] at h
      cases h
  | succ n ih =>
    intro l r h
    cases l with
    | nil =>
      rw [chopToBytesGo] at h
      split at h
      · cases h
      · cases h
        exact ⟨0, rfl⟩
    | cons c rest =>
      rw [chopToBytesGo] at h
      split at h
      · obtain ⟨k, hk⟩ := ih _ r h
        refine ⟨min k ((c :: rest).length - 1), ?_⟩
        rw [hk, List.dropLast_eq_take, List.take_take]
      · cases h
        exact ⟨(c :: rest).length, by simp⟩

theorem chopToBytes_le (index : Int) :
    ∀ (l r : List Char), chopToBytes index l = some r → (utf8Len r : Int) ≤ index :=
  fun l r h => chopToBytesGo_le index l.length l r h

theorem chopToBytes_take (index : Int) :
    ∀ (l r : List Char), chopToBytes index l = some r → ∃ k, r = l.take k :=
  fun l r h => chopToBytesGo_take index l.length l r h

theorem modifyMatch_getD_eq (ms : List Change) (i : Nat) (f : Change → Change)
    (h : i < ms.length) : (modifyMatch ms i f).getD i {} = f (ms.getD i {}) := by
  simp only [modifyMatch, List.getD]
  rw [List.get?_set_eq_of_lt _ h]
  rfl

theorem extData_no_slash (l : List Char) (h : '/' ∉ l) : '/' ∉ extData l := by
  simp only [extData]
  split
  · intro hm
    rcases List.mem_cons.mp hm with h1 | h2
    · cases h1
    · have h3 : '/' ∈ l.reverse.takeWhile (· ≠ '.') := List.mem_reverse.mp h2
      have h4 : '/' ∈ l.reverse := List.takeWhile_subset _ h3
      exact h (List.mem_reverse.mp h4)
  · simp

/-- Detection rule of `checktTargetLength` on both platforms. -/
theorem checktTargetLength_isSome_iff (os : OSKind) (t : String) :
    (checktTargetLength os t).isSome = true ↔
      ((os = .windows ∧ (baseName t).data.length > windowsMaxLength) ∨
       (os ≠ .windows ∧ utf8Len (baseName t).data > unixMaxBytes)) := by
  by_cases hos : os = .windows
  · simp only [checktTargetLength, if_pos hos]
    by_cases hlen : (baseName t).data.length > windowsMaxLength
    · simp [hos, hlen]
    · simp [hos, hlen]
  · simp only [checktTargetLength, if_neg hos]
    by_cases hlen : utf8Len (baseName t).data > unixMaxBytes
    · simp [hos, hlen]
    · simp [hos, hlen]

/-- Claim C7 (amended): a length conflict is reported exactly when the
target's base filename exceeds 260 Unicode code points (runes — not UTF-16
units) on Windows or 255 bytes on other platforms.  Under auto-fix on
non-Windows platforms the name without its extension is truncated so that
the new target (a prefix of the old base name plus the unchanged extension)
is within 255 bytes, carries status `ok`, and no longer triggers the check.
On Windows the truncated base name and the extension are joined with a path
separator, the result no longer triggers the check, and the status is left
as length-exceeded. -/
theorem claim7_length_conflict (os : OSKind) (sp tg tp : String) (i : Nat)
    (ms ms' : List Change) (cs cs' : ConflictList) (det : Bool)
    (hos : os ≠ .windows) (hi : i < ms.length)
    (hrun : checkPathLengthConflict os true sp tg tp i ms cs = some (ms', cs', det)) :
    (∀ (os' : OSKind) (t : String), (checktTargetLength os' t).isSome = true ↔
      ((os' = .windows ∧ (baseName t).data.length > windowsMaxLength) ∨
       (os' ≠ .windows ∧ utf8Len (baseName t).data > unixMaxBytes)))
    ∧ (checktTargetLength os tg ≠ none → det = true ∧
        ∃ k, (ms'.getD i {}).target =
            String.mk ((filenameWithoutExtension (baseName tg)).data.take k) ++
              fileExt (baseName tg) ∧
          utf8Len ((ms'.getD i {}).target).data ≤ unixMaxBytes ∧
          checktTargetLength os ((ms'.getD i {}).target) = none ∧
          (ms'.getD i {}).status = .ok)
    ∧ (∀ (sp₂ tg₂ tp₂ : String) (i₂ : Nat) (ms₂ ms₂' : List Change)
        (cs₂ cs₂' : ConflictList) (det₂ : Bool), i₂ < ms₂.length →
        checkPathLengthConflict .windows true sp₂ tg₂ tp₂ i₂ ms₂ cs₂ = some (ms₂', cs₂', det₂) →
        checktTargetLength .windows tg₂ ≠ none →
        det₂ = true ∧
        ∃ k, (ms₂'.getD i₂ {}).target =
            joinPath (String.mk ((filenameWithoutExtension (baseName tg₂)).data.take k))
              (fileExt (baseName tg₂)) ∧
          checktTargetLength .windows ((ms₂'.getD i₂ {}).target) = none ∧
          (ms₂'.getD i₂ {}).status = .filenameLengthExceeded) := by
  have hbb : ∀ s : String, baseName (baseName s) = baseName s := fun s =>
    baseName_of_no_slash (baseName s).data (baseName_no_slash s)
  refine ⟨checktTargetLength_isSome_iff, ?_, ?_⟩
  · intro hdet
    obtain ⟨cause, hcause⟩ : ∃ c, checktTargetLength os tg = some c := by
      cases hc : checktTargetLength os tg with
      | none => exact absurd hc hdet
      | some c => exact ⟨c, rfl⟩
    simp only [checkPathLengthConflict, hcause, if_pos, if_neg hos, if_true] at hrun
    set filename := baseName tg with hfn
    set extStr := fileExt filename with hext
    set fileNoExt := filenameWithoutExtension filename with hfne
    set index : Int := (unixMaxBytes : Int) - (utf8Len extStr.data : Int) with hidx
    cases hchop : chopToBytes index fileNoExt.data with
    | none => rw [hchop] at hrun; cases hrun
    | some f =>
      rw [hchop] at hrun
      cases hrun
      refine ⟨rfl, ?_⟩
      obtain ⟨k, hk⟩ := chopToBytes_take index fileNoExt.data f hchop
      have htgt : ((modifyMatch
          (modifyMatch ms i (fun c => { c with status := RenameStatus.filenameLengthExceeded })) i
          (fun c => { c with target := String.mk f ++ extStr,
                             status := RenameStatus.ok })).getD i {})
          = { (modifyMatch ms i
                (fun c => { c with status := RenameStatus.filenameLengthExceeded })).getD i {} with
              target := String.mk f ++ extStr, status := RenameStatus.ok } :=
        modifyMatch_getD_eq _ i _ (by rw [modifyMatch_length]; exact hi)
      have hdata : (String.mk f ++ extStr).data = f ++ extStr.data := by
        rw [String.data_append]
      have hfslash : '/' ∉ f := by
        intro hx
        rw [hk] at hx
        have h1 : '/' ∈ fileNoExt.data := List.take_subset _ _ hx
        have h2 : '/' ∈ filename.data := List.take_subset _ _ h1
        exact baseName_no_slash tg h2
      have heslash : '/' ∉ extStr.data := by
        rw [hext, fileExt, hbb tg, ← hfn]
        exact extData_no_slash filename.data (baseName_no_slash tg)
      have hle := chopToBytes_le index fileNoExt.data f hchop
      have hbytes : utf8Len (f ++ extStr.data) ≤ unixMaxBytes := by
        rw [utf8Len_append]
        rw [hidx] at hle
        omega
      refine ⟨k, ?_, ?_, ?_, ?_⟩
      · rw [htgt]
        rw [hk, hfne]
      · rw [htgt]
        dsimp only
        rw [hdata]
        exact hbytes
      · rw [htgt]
        dsimp only
        have hnew : String.mk f ++ extStr = String.mk (f ++ extStr.data) := rfl
        rw [hnew, checktTargetLength, if_neg hos,
          baseName_of_no_slash (f ++ extStr.data) (by
            intro hx
            rcases List.mem_append.mp hx with hx1 | hx2
            · exact hfslash hx1
            · exact heslash hx2)]
        rw [if_neg (by simpa using hbytes)]
      · rw [htgt]
  · intro sp₂ tg₂ tp₂ i₂ ms₂ ms₂' cs₂ cs₂' det₂ hi₂ hrun₂ hdet₂
    obtain ⟨cause₂, hcause₂⟩ : ∃ c, checktTargetLength .windows tg₂ = some c := by
      cases hc : checktTargetLength .windows tg₂ with
      | none => exact absurd hc hdet₂
      | some c => exact ⟨c, rfl⟩
    simp only [checkPathLengthConflict, hcause₂, if_true, if_pos] at hrun₂
    set filename := (baseName tg₂).data with hfn
    set extL := extData filename with hext
    set f := filename.take (filename.length - extL.length) with hf
    set index : Int := (windowsMaxLength : Int) - (extL.length : Int) with hidx
    split at hrun₂
    · cases hrun₂
    · rename_i hpanic
      cases hrun₂
      rw [not_or, not_lt, not_lt] at hpanic
      obtain ⟨hidx0, hidxle⟩ := hpanic
      refine ⟨rfl, ?_⟩
      have htgt : ((modifyMatch
          (modifyMatch ms₂ i₂ (fun c => { c with status := RenameStatus.filenameLengthExceeded })) i₂
          (fun c => { c with target := joinPath (String.mk (f.take index.toNat)) (String.mk extL) })).getD i₂ {})
          = { (modifyMatch ms₂ i₂
                (fun c => { c with status := RenameStatus.filenameLengthExceeded })).getD i₂ {} with
              target := joinPath (String.mk (f.take index.toNat)) (String.mk extL) } :=
        modifyMatch_getD_eq _ i₂ _ (by rw [modifyMatch_length]; exact hi₂)
      have hfweq : (filenameWithoutExtension (baseName tg₂)).data = f := by
        rw [hf, hext, hfn]
        rfl
      have hextStr : fileExt (baseName tg₂) = String.mk extL := by
        rw [fileExt, hbb tg₂, hext, hfn]
      have hfslash : '/' ∉ f.take index.toNat := by
        intro hx
        have h1 : '/' ∈ f := List.take_subset _ _ hx
        rw [hf] at h1
        have h2 : '/' ∈ filename := List.take_subset _ _ h1
        rw [hfn] at h2
        exact baseName_no_slash tg₂ h2
      have heslash : '/' ∉ extL := by
        rw [hext, hfn]
        exact extData_no_slash (baseName tg₂).data (baseName_no_slash tg₂)
      have hextle : (extL.length : Int) ≤ (windowsMaxLength : Int) := by
        rw [hidx] at hidx0
        omega
      have hlen260 : ¬ ((baseName (joinPath (String.mk (f.take index.toNat))
          (String.mk extL))).data.length > windowsMaxLength) := by
        by_cases h3 : extL = []
        · have h260 : index.toNat ≤ windowsMaxLength := by
            rw [hidx, h3]
            decide
          simp only [joinPath]
          by_cases h1 : String.mk (f.take index.toNat) = ""
          · rw [if_pos h1, h3]
            decide
          · rw [if_neg h1]
            by_cases h2 : String.mk (f.take index.toNat) = "."
            · rw [if_pos h2, h3]
              decide
            · rw [if_neg h2, h3, if_pos rfl]
              rw [baseName_of_no_slash _ hfslash]
              simp only [not_lt]
              show (f.take index.toNat).length ≤ windowsMaxLength
              rw [List.length_take]
              omega
        · rw [baseName_join_no_slash _ extL heslash h3]
          simp only [not_lt]
          exact_mod_cast hextle
      refine ⟨index.toNat, ?_, ?_, ?_⟩
      · rw [htgt]
        dsimp only
        rw [hfweq, hextStr]
      · rw [htgt]
        dsimp only
        rw [checktTargetLength, if_pos rfl, if_neg hlen260]
      · rw [htgt]
        dsimp only
        rw [modifyMatch_getD_eq _ i₂ _ hi₂]

/-! ## Conflict-list parametricity of the per-item step (for C6) -/

/-- Running `checkTrailingPeriodConflict` with accumulated conflicts `cs` is
the run with an empty accumulator, with `cs` prefixed to the output list. -/
theorem checkTrailingPeriodConflict_shift (os : OSKind) (fix : Bool)
    (sp tg tp : String) (i : Nat) (ms : List Change) (cs : ConflictList) :
    checkTrailingPeriodConflict os fix sp tg tp i ms cs
      = ((checkTrailingPeriodConflict os fix sp tg tp i ms []).1,
         cs ++ (checkTrailingPeriodConflict os fix sp tg tp i ms []).2.1,
         (checkTrailingPeriodConflict os fix sp tg tp i ms []).2.2) := by
  simp only [checkTrailingPeriodConflict]
  split
  · split
    · split <;> simp
    · simp
  · simp

/-- Conflict-list parametricity of `checkPathLengthConflict`. -/
theorem checkPathLengthConflict_shift (os : OSKind) (fix : Bool)
    (sp tg tp : String) (i : Nat) (ms : List Change) (cs : ConflictList) :
    checkPathLengthConflict os fix sp tg tp i ms cs
      = (checkPathLengthConflict os fix sp tg tp i ms []).map
          (fun r => (r.1, cs ++ r.2.1, r.2.2)) := by
  simp only [checkPathLengthConflict]
  split
  · simp
  · split
    · split
      · split
        · simp
        · simp
      · split <;> simp
    · simp

/-- Conflict-list parametricity of `checkForbiddenCharactersConflict`. -/
theorem checkForbiddenCharactersConflict_shift (os : OSKind) (fix : Bool)
    (sp tg tp : String) (i : Nat) (ms : List Change) (cs : ConflictList) :
    checkForbiddenCharactersConflict os fix sp tg tp i ms cs
      = ((checkForbiddenCharactersConflict os fix sp tg tp i ms []).1,
         cs ++ (checkForbiddenCharactersConflict os fix sp tg tp i ms []).2.1,
         (checkForbiddenCharactersConflict os fix sp tg tp i ms []).2.2) := by
  simp only [checkForbiddenCharactersConflict]
  split
  · simp
  · split <;> simp

/-- Conflict-list parametricity of `checkPathExistsConflict`. -/
theorem checkPathExistsConflict_shift (env : Env) (fix ao : Bool)
    (sp tp : String) (ch : Change) (i : Nat) (ms : List Change) (cs : ConflictList) :
    checkPathExistsConflict env fix ao sp tp ch i ms cs
      = (checkPathExistsConflict env fix ao sp tp ch i ms []).map
          (fun r => (r.1, cs ++ r.2.1, r.2.2)) := by
  simp only [checkPathExistsConflict]
  split
  · split
    · simp
    · split
      · simp
      · split
        · simp
        · split
          · split <;> simp
          · simp
  · simp

/-- Conflict-list parametricity of one iteration of the detection loop: the
accumulated conflicts never influence control flow, matches, renamed paths or
the next index; they are only prefixed to the appended entries. -/
theorem detectStep_shift (env : Env) (fix ao : Bool) (ms : List Change)
    (r : RenamedPaths) (cs : ConflictList) (i : Nat) :
    detectStep env fix ao { matches' := ms, conflicts := cs, renamed := r } i
      = (detectStep env fix ao { matches' := ms, conflicts := [], renamed := r } i).map
          (fun p => ({ p.1 with conflicts := cs ++ p.1.conflicts }, p.2)) := by
  simp only [detectStep]
  generalize joinPath (ms.getD i {}).baseDir (ms.getD i {}).source = sp
  generalize joinPath (ms.getD i {}).baseDir (ms.getD i {}).target = tp
  generalize (ms.getD i {}).target = tg
  generalize ms.getD i {} = ch
  by_cases h0 : tg = "." ∨ tg = ""
  · rw [if_pos h0, if_pos h0]
    split <;> simp
  · rw [if_neg h0, if_neg h0]
    rw [checkTrailingPeriodConflict_shift env.os fix sp tg tp i ms cs]
    rcases hC1 : checkTrailingPeriodConflict env.os fix sp tg tp i ms [] with ⟨ms₁, cs₁, det₁⟩
    dsimp only
    by_cases hd1 : (det₁ && fix) = true
    · rw [if_pos hd1, if_pos hd1]
      simp
    · rw [if_neg hd1, if_neg hd1]
      rw [checkPathLengthConflict_shift env.os fix sp tg tp i ms₁ (cs ++ cs₁),
          checkPathLengthConflict_shift env.os fix sp tg tp i ms₁ cs₁]
      rcases hC2 : checkPathLengthConflict env.os fix sp tg tp i ms₁ [] with _ | ⟨ms₂, cs₂, det₂⟩
      · simp
      · dsimp only [Option.map]
        by_cases hd2 : (det₂ && fix) = true
        · rw [if_pos hd2, if_pos hd2]
          simp
        · rw [if_neg hd2, if_neg hd2]
          rw [checkForbiddenCharactersConflict_shift env.os fix sp tg tp i ms₂ ((cs ++ cs₁) ++ cs₂),
              checkForbiddenCharactersConflict_shift env.os fix sp tg tp i ms₂ (cs₁ ++ cs₂)]
          rcases hC3 : checkForbiddenCharactersConflict env.os fix sp tg tp i ms₂ []
            with ⟨ms₃, cs₃, det₃⟩
          dsimp only
          by_cases hd3 : (det₃ && fix) = true
          · rw [if_pos hd3, if_pos hd3]
            simp
          · rw [if_neg hd3, if_neg hd3]
            rw [checkPathExistsConflict_shift env fix ao sp tp ch i ms₃ (((cs ++ cs₁) ++ cs₂) ++ cs₃),
                checkPathExistsConflict_shift env fix ao sp tp ch i ms₃ ((cs₁ ++ cs₂) ++ cs₃)]
            rcases hC4 : checkPathExistsConflict env fix ao sp tp ch i ms₃ []
              with _ | ⟨ms₄, cs₄, det₄⟩
            · simp
            · dsimp only [Option.map]
              by_cases hd4 : (det₄ && fix) = true
              · rw [if_pos hd4, if_pos hd4]
                simp
              · rw [if_neg hd4, if_neg hd4]
                simp [List.append_assoc]

/-! ## Claim C6: termination of the per-item detection loop -/

set_option maxRecDepth 16000 in
/-- From state `c6M0` the step fires the path-exists fix (the target exists),
renames to the suffixed name and stays at index 0 to recheck. -/
theorem c6_step0_closed :
    detectStep c6Env true false { matches' := [c6M0], conflicts := [], renamed := [] } 0
      = some ({ matches' := [c6M1], conflicts := c6D0, renamed := [] }, 0) := by
  decide

set_option maxRecDepth 16000 in
/-- From state `c6M1` the step fires the length fix (259 > 255 bytes),
truncates back to exactly `aStr` and stays at index 0 to recheck. -/
theorem c6_step1_closed :
    detectStep c6Env true false { matches' := [c6M1], conflicts := [], renamed := [] } 0
      = some ({ matches' := [c6M0], conflicts := c6D1, renamed := [] }, 0) := by
  decide

/-- Step from state `c6M0`, for an arbitrary conflict accumulator. -/
theorem c6_step0 (cs : ConflictList) :
    detectStep c6Env true false { matches' := [c6M0], conflicts := cs, renamed := [] } 0
      = some ({ matches' := [c6M1], conflicts := cs ++ c6D0, renamed := [] }, 0) := by
  rw [detectStep_shift, c6_step0_closed]
  rfl

/-- Step from state `c6M1`, for an arbitrary conflict accumulator. -/
theorem c6_step1 (cs : ConflictList) :
    detectStep c6Env true false { matches' := [c6M1], conflicts := cs, renamed := [] } 0
      = some ({ matches' := [c6M0], conflicts := cs ++ c6D1, renamed := [] }, 0) := by
  rw [detectStep_shift, c6_step1_closed]
  rfl

/-- The detection loop alternates between the two states forever: no amount
of fuel makes it return. -/
theorem c6_loop : ∀ fuel, ∀ cs : ConflictList,
    detectLoop c6Env true false fuel { matches' := [c6M0], conflicts := cs, renamed := [] } 0 = none ∧
    detectLoop c6Env true false fuel { matches' := [c6M1], conflicts := cs, renamed := [] } 0 = none := by
  intro fuel
  induction fuel with
  | zero => intro cs; exact ⟨rfl, rfl⟩
  | succ n ih =>
    intro cs
    constructor
    · rw [detectLoop]
      rw [if_pos (show (0:Nat) <
            ({ matches' := [c6M0], conflicts := cs, renamed := [] } : DetectCtx).matches'.length
          from Nat.one_pos)]
      rw [c6_step0 cs]
      exact (ih _).2
    · rw [detectLoop]
      rw [if_pos (show (0:Nat) <
            ({ matches' := [c6M1], conflicts := cs, renamed := [] } : DetectCtx).matches'.length
          from Nat.one_pos)]
      rw [c6_step1 cs]
      exact (ih _).1

/-- Claim C6 states that with auto-fix enabled the per-item detection loop of
`detectConflicts` terminates for every input, every fix being a transformation
that cannot re-trigger itself indefinitely.  The code violates this: when a
single match renames `d/src.txt` to an existing 255-byte name, the path-exists
fix appends a collision suffix (giving a 259-byte name) and the length fix
truncates that name back to the original 255 bytes, so the loop alternates
between the two targets forever — for every fuel bound the fueled embedding of
the loop is still running (`none`), refuting termination on this input. -/
theorem claim6_detect_nontermination :
    ∀ fuel, detectConflicts c6Env c6Op fuel = none := by
  intro fuel
  have h := (c6_loop fuel []).1
  rw [detectConflicts]
  dsimp only [c6Op]
  rw [h]

/-! ## Claim C7: the length conflict and its fix -/

set_option maxRecDepth 8000 in
/-- Claim C7 says a length conflict is reported exactly when the target base
filename exceeds 260 UTF-16 units on Windows.  The source counts runes
(`len([]rune(filename))`), not UTF-16 units: this 131-rune target needs
262 > 260 UTF-16 units, yet the Windows length check reports no conflict —
the run returns the match list unchanged, appends nothing, and detects
`false`. -/
theorem claim7_counterexample :
    utf16Units c7Astral > windowsMaxLength ∧
    checkPathLengthConflict .windows true "d/s.txt" c7Astral ("d/" ++ c7Astral) 0
        [{ source := "s.txt", target := c7Astral, baseDir := "d" }] []
      = some ([{ source := "s.txt", target := c7Astral, baseDir := "d" }], [], false) := by
  decide

set_option maxRecDepth 8000 in
/-- Witness for C7 on a concrete non-Windows run: the 256-byte target is
detected, the fixed target is back within 255 bytes, passes the recheck and
carries status `ok`. -/
theorem claim7_length_conflict_witness :
    OSKind.linux ≠ OSKind.windows ∧ 0 < w7Ms.length ∧
    checktTargetLength OSKind.linux w7Tg ≠ none ∧
    (w7Out.1.getD 0 {}).status = RenameStatus.ok ∧
    utf8Len ((w7Out.1.getD 0 {}).target).data ≤ unixMaxBytes ∧
    checktTargetLength OSKind.linux ((w7Out.1.getD 0 {}).target) = none := by
  have h := claim7_length_conflict OSKind.linux "d/s.txt" w7Tg ("d/" ++ w7Tg) 0
      w7Ms w7Out.1 [] w7Out.2.1 w7Out.2.2 (by decide) (by decide) rfl
  have h2 := h.2.1 (by decide)
  obtain ⟨-, k, -, hb, hr, hs⟩ := h2
  exact ⟨by decide, by decide, by decide, hs, hb, hr⟩

end F2
